import Mathlib

/-!
# Verification of the `normify` instrument-name normalization engine

A shallow embedding of the Rust crate `normify` (src/lib.rs and
src/exchange/{deribit,derive,dydx,paradex,aevo}.rs).  Rust `&str` values are
modelled as `List Char`; `u64` parsing carries the explicit `2 ^ 64` bound;
fallible operations return `Option` / `Except`.  Character-case operations are
modelled at the ASCII level (every symbol, keyword and date token the crate
manipulates is ASCII; Rust's `eq_ignore_ascii_case` is ASCII by definition and
`str::to_uppercase` agrees with ASCII uppercasing on ASCII input).  The chrono
date parsing used by the crate (`NaiveDate::parse_from_str` with the three
patterns the crate mentions) is modelled field by field: numeric fields skip
leading whitespace and read one up to `width` digits greedily, `%b` reads
exactly three letters of a month abbreviation ignoring case, the whole input
must be consumed, and the resulting year/month/day triple must be a real
proleptic-Gregorian calendar date.  Explicitly signed years (a leading `+` or
`-`, which none of the crate's formats produce) are outside the model.
-/

/-- Rust `&str`, modelled as its list of characters. -/
abbrev Str := List Char

/-- Characters of a Lean string literal, for writing `Str` constants. -/
def str (s : String) : Str := s.data

/-- ASCII lowercasing of one character (Rust `u8::to_ascii_lowercase`). -/
def asciiLowerChar (c : Char) : Char :=
  if 65 ≤ c.toNat ∧ c.toNat ≤ 90 then Char.ofNat (c.toNat + 32) else c

/-- ASCII uppercasing of one character (Rust `u8::to_ascii_uppercase`;
`str::to_uppercase` agrees on ASCII input). -/
def asciiUpperChar (c : Char) : Char :=
  if 97 ≤ c.toNat ∧ c.toNat ≤ 122 then Char.ofNat (c.toNat - 32) else c

/-- `str::to_lowercase` restricted to ASCII. -/
def lowerStr (s : Str) : Str := s.map asciiLowerChar

/-- `str::to_uppercase` restricted to ASCII. -/
def upperStr (s : Str) : Str := s.map asciiUpperChar

/-- Rust `str::eq_ignore_ascii_case`. -/
def eqIgnoreAsciiCase (a b : Str) : Bool := lowerStr a == lowerStr b

/-- ASCII whitespace (the whitespace characters relevant to `str::trim` on the
ASCII inputs this crate handles). -/
def isWsChar (c : Char) : Bool :=
  c.toNat == 32 || c.toNat == 9 || c.toNat == 10 || c.toNat == 13

/-- ASCII decimal digit test (Rust `char::is_ascii_digit`). -/
def isDigitChar (c : Char) : Bool := 48 ≤ c.toNat && c.toNat ≤ 57

/-- Rust `str::trim` (ASCII whitespace model). -/
def trimStr (s : Str) : Str :=
  ((s.dropWhile (isWsChar ·)).reverse.dropWhile (isWsChar ·)).reverse

/-- Rust `str::split_once(c)`: split at the first occurrence of `c`. -/
def splitOnce (c : Char) : Str → Option (Str × Str)
  | [] => none
  | x :: xs =>
    if x = c then some ([], xs)
    else (splitOnce c xs).map (fun p => (x :: p.1, p.2))

/-! ## Decimal numerals -/

/-- The ASCII digit character for `n` (`n < 10` at every use site). -/
def digitChar (n : Nat) : Char :=
  match n with
  | 0 => '0' | 1 => '1' | 2 => '2' | 3 => '3' | 4 => '4'
  | 5 => '5' | 6 => '6' | 7 => '7' | 8 => '8' | _ => '9'

/-- Numeric value of a digit character. -/
def charDigitVal (c : Char) : Nat := c.toNat - 48

/-- Value of a big-endian digit string (the accumulation loop shared by
chrono's numeric field scanner and Rust's `u64` parser). -/
def natOfDigits (s : Str) : Nat := s.foldl (fun a c => a * 10 + charDigitVal c) 0

/-- Zero-padded two-digit rendering (chrono `%d`, `%m`, `%y` output). -/
def pad2 (n : Nat) : Str := [digitChar (n / 10 % 10), digitChar (n % 10)]

/-- Zero-padded four-digit rendering (chrono `%Y` output for the years this
crate produces, all below 10000). -/
def pad4 (n : Nat) : Str :=
  [digitChar (n / 1000 % 10), digitChar (n / 100 % 10),
   digitChar (n / 10 % 10), digitChar (n % 10)]

/-- Rust `format!("{}", n)` for an unsigned integer: the canonical decimal
numeral, most significant digit first. -/
def natToStr (n : Nat) : Str :=
  if n = 0 then ['0'] else ((Nat.digits 10 n).reverse).map digitChar

/-- Rust `str::parse::<u64>()`: an optional leading `+`, then one or more
ASCII digits, with the value required to fit in 64 bits. -/
def parseU64 (s : Str) : Option Nat :=
  let t := match s with
    | c :: r => if c = '+' then r else c :: r
    | [] => []
  if t ≠ [] ∧ t.all (isDigitChar ·) then
    let v := natOfDigits t
    if v < 2 ^ 64 then some v else none
  else none

/-! ## Expiry date engine (src/lib.rs, date handling functions)

`parse_expiry_date` / `format_expiry_date` wrap chrono with one of three
patterns; `STANDARD_DATE_FORMAT` is `%Y%m%d`. -/

/-- A chrono `NaiveDate`, as the parsed year/month/day triple. -/
structure YMD where
  y : Nat
  m : Nat
  d : Nat
deriving DecidableEq, Repr

/-- The three chrono format strings the crate uses:
`%d%b%y`, `%Y%m%d` (the standard format) and `%d%b%Y`. -/
inductive DateFmt where
  | dmy2
  | ymd
  | dmy4
deriving DecidableEq, Repr

/-- chrono numeric-field scanner: skip leading whitespace, then read at least
one and at most `w` ASCII digits greedily. -/
def scanNum (w : Nat) (s : Str) : Option (Nat × Str) :=
  let s1 := s.dropWhile (isWsChar ·)
  let ds := (s1.take w).takeWhile (isDigitChar ·)
  if ds.isEmpty then none else some (natOfDigits ds, s1.drop ds.length)

/-- chrono `%b` scanner: exactly three letters matched case-insensitively
against the English month abbreviations; yields the month number 1–12. -/
def scanMonthAbbrev (s : Str) : Option (Nat × Str) :=
  let pre := lowerStr (s.take 3)
  if s.length < 3 then none
  else if pre = str "jan" then some (1, s.drop 3)
  else if pre = str "feb" then some (2, s.drop 3)
  else if pre = str "mar" then some (3, s.drop 3)
  else if pre = str "apr" then some (4, s.drop 3)
  else if pre = str "may" then some (5, s.drop 3)
  else if pre = str "jun" then some (6, s.drop 3)
  else if pre = str "jul" then some (7, s.drop 3)
  else if pre = str "aug" then some (8, s.drop 3)
  else if pre = str "sep" then some (9, s.drop 3)
  else if pre = str "oct" then some (10, s.drop 3)
  else if pre = str "nov" then some (11, s.drop 3)
  else if pre = str "dec" then some (12, s.drop 3)
  else none

/-- chrono's capitalized month abbreviation, as `%b` renders it. -/
def monthName (m : Nat) : Str :=
  match m with
  | 1 => str "Jan" | 2 => str "Feb" | 3 => str "Mar" | 4 => str "Apr"
  | 5 => str "May" | 6 => str "Jun" | 7 => str "Jul" | 8 => str "Aug"
  | 9 => str "Sep" | 10 => str "Oct" | 11 => str "Nov" | _ => str "Dec"

/-- Proleptic-Gregorian leap year rule (chrono `NaiveDate`). -/
def isLeapYear (y : Nat) : Bool :=
  y % 4 == 0 && (y % 100 != 0 || y % 400 == 0)

/-- Days in a month of the proleptic-Gregorian calendar (0 for an invalid
month number, so that no day passes the range check). -/
def daysInMonth (y m : Nat) : Nat :=
  match m with
  | 1 => 31 | 2 => if isLeapYear y then 29 else 28
  | 3 => 31 | 4 => 30 | 5 => 31 | 6 => 30 | 7 => 31
  | 8 => 31 | 9 => 30 | 10 => 31 | 11 => 30 | 12 => 31
  | _ => 0

/-- chrono `NaiveDate::from_ymd_opt` validity: month 1–12 and day within the
month (the year bound of `NaiveDate` never binds here, every parsed year is
at most 9999). -/
def validYMD (y m d : Nat) : Bool :=
  1 ≤ m && m ≤ 12 && 1 ≤ d && d ≤ daysInMonth y m

/-- chrono's two-digit-year completion: 0–68 map into 20xx, 69–99 into 19xx. -/
def yearOfMod100 (yy : Nat) : Nat := if yy ≤ 68 then 2000 + yy else 1900 + yy

/-- `parse_expiry_date` (src/lib.rs): `NaiveDate::parse_from_str` with one of
the three patterns; the whole input must be consumed and the triple must be a
valid calendar date. -/
def parseExpiryDate (s : Str) (fmt : DateFmt) : Option YMD :=
  match fmt with
  | .dmy2 =>
    match scanNum 2 s with
    | none => none
    | some (d, r1) =>
      match scanMonthAbbrev r1 with
      | none => none
      | some (m, r2) =>
        match scanNum 2 r2 with
        | none => none
        | some (yy, r3) =>
          if r3 = [] ∧ validYMD (yearOfMod100 yy) m d then
            some ⟨yearOfMod100 yy, m, d⟩
          else none
  | .ymd =>
    match scanNum 4 s with
    | none => none
    | some (y, r1) =>
      match scanNum 2 r1 with
      | none => none
      | some (m, r2) =>
        match scanNum 2 r2 with
        | none => none
        | some (d, r3) =>
          if r3 = [] ∧ validYMD y m d then some ⟨y, m, d⟩ else none
  | .dmy4 =>
    match scanNum 2 s with
    | none => none
    | some (d, r1) =>
      match scanMonthAbbrev r1 with
      | none => none
      | some (m, r2) =>
        match scanNum 4 r2 with
        | none => none
        | some (y, r3) =>
          if r3 = [] ∧ validYMD y m d then some ⟨y, m, d⟩ else none

/-- `format_expiry_date` (src/lib.rs): chrono rendering of a date under one of
the three patterns (`%d` `%m` `%y` zero-pad to two digits, `%Y` to four, `%b`
renders the capitalized abbreviation). -/
def renderDate (d : YMD) (fmt : DateFmt) : Str :=
  match fmt with
  | .dmy2 => pad2 d.d ++ monthName d.m ++ pad2 d.y
  | .ymd => pad4 d.y ++ pad2 d.m ++ pad2 d.d
  | .dmy4 => pad2 d.d ++ monthName d.m ++ pad4 d.y

/-- `normalize_expiry` (src/lib.rs): try `%d%b%y`, then `%Y%m%d`, then
`%d%b%Y`; render the first success in the standard `%Y%m%d` format. -/
def normalizeExpiry (s : Str) : Option Str :=
  match parseExpiryDate s .dmy2 with
  | some d => some (renderDate d .ymd)
  | none =>
    match parseExpiryDate s .ymd with
    | some d => some (renderDate d .ymd)
    | none =>
      match parseExpiryDate s .dmy4 with
      | some d => some (renderDate d .ymd)
      | none => none

/-- `denormalize_expiry` (src/lib.rs): parse the standard `%Y%m%d` form,
render it in the target pattern uppercased; on a parse failure, log and
return the empty string. -/
def denormalizeExpiry (s : Str) (fmt : DateFmt) : Str :=
  match parseExpiryDate s .ymd with
  | some d => upperStr (renderDate d fmt)
  | none => []

/-! ## Data model (src/lib.rs) -/

/-- The `Exchange` enum. -/
inductive Exchange where
  | deribit
  | dydx
  | derive
  | paradex
  | aevo
deriving DecidableEq, Repr

/-- `impl Display for Exchange`: lowercase venue name. -/
def Exchange.displayStr : Exchange → Str
  | .deribit => str "deribit"
  | .dydx => str "dydx"
  | .derive => str "derive"
  | .paradex => str "paradex"
  | .aevo => str "aevo"

/-- `impl TryFrom<&str> for Exchange`: trim, then case-insensitive match. -/
def Exchange.tryFrom (value : Str) : Except Str Exchange :=
  let s := trimStr value
  if eqIgnoreAsciiCase s (str "deribit") then .ok .deribit
  else if eqIgnoreAsciiCase s (str "dydx") then .ok .dydx
  else if eqIgnoreAsciiCase s (str "derive") then .ok .derive
  else if eqIgnoreAsciiCase s (str "paradex") then .ok .paradex
  else if eqIgnoreAsciiCase s (str "aevo") then .ok .aevo
  else .error (str "Invalid exchange name: " ++ value)

/-- The `MarketType` enum. -/
inductive MarketType where
  | orderBook
  | publicTrade
  | ticker
  | funding
deriving DecidableEq, Repr

/-- `impl Display for MarketType`: the one-letter code. -/
def MarketType.displayStr : MarketType → Str
  | .orderBook => str "o"
  | .publicTrade => str "p"
  | .ticker => str "t"
  | .funding => str "f"

/-- `impl TryFrom<&str> for MarketType`: trim, then case-insensitive match of
the one-letter codes and their full-word synonyms. -/
def MarketType.tryFrom (value : Str) : Except Str MarketType :=
  let s := trimStr value
  if eqIgnoreAsciiCase s (str "o") || eqIgnoreAsciiCase s (str "orderbook") then
    .ok .orderBook
  else if eqIgnoreAsciiCase s (str "p") || eqIgnoreAsciiCase s (str "publictrade")
      || eqIgnoreAsciiCase s (str "trade") then
    .ok .publicTrade
  else if eqIgnoreAsciiCase s (str "t") || eqIgnoreAsciiCase s (str "ticker") then
    .ok .ticker
  else if eqIgnoreAsciiCase s (str "f") || eqIgnoreAsciiCase s (str "funding") then
    .ok .funding
  else .error (str "Invalid market type")

/-- The `OptionKind` enum. -/
inductive OptionKind where
  | call
  | put
deriving DecidableEq, Repr

/-- `impl Display for OptionKind`. -/
def OptionKind.displayStr : OptionKind → Str
  | .call => str "C"
  | .put => str "P"

/-- `impl TryFrom<&str> for OptionKind` (no trim; case-insensitive). -/
def OptionKind.tryFrom (value : Str) : Except Str OptionKind :=
  if eqIgnoreAsciiCase value (str "c") || eqIgnoreAsciiCase value (str "call") then
    .ok .call
  else if eqIgnoreAsciiCase value (str "p") || eqIgnoreAsciiCase value (str "put") then
    .ok .put
  else .error (str "Invalid option kind: " ++ value)

/-- The `Currency` newtype over its stored symbol string.  Equality (the
derived `PartialEq`) is structural on the stored string. -/
structure Currency where
  sym : Str
deriving DecidableEq, Repr

/-- `Currency::new`: uppercase the symbol.  (The source additionally swaps in
shared static storage for common symbols; that only changes allocation, the
stored string value is the uppercased symbol either way.) -/
def Currency.new (symbol : Str) : Currency := ⟨upperStr symbol⟩

/-- The `InstrumentType` enum with its typed payloads (`expiry` is the stored
`Cow<'static, str>`, `strike` the `u64`). -/
inductive InstrumentType where
  | future (base quote : Currency) (expiry : Str)
  | option (base quote : Currency) (expiry : Str) (strike : Nat) (kind : OptionKind)
  | spot (base quote : Currency)
  | perpetual (base quote : Currency)
deriving DecidableEq, Repr

/-- The instrument-kind code `impl Display for InstrumentType` writes before
the first `-` join. -/
def InstrumentType.kindCode : InstrumentType → Str
  | .future _ _ _ => str "f"
  | .option _ _ _ _ _ => str "o"
  | .spot _ _ => str "s"
  | .perpetual _ _ => str "p"

/-- `impl Display for InstrumentType`.  The `Option` arm re-parses the stored
expiry in the standard format and fails (`fmt::Error`) if it does not parse;
rendering is therefore partial. -/
def InstrumentType.displayStr : InstrumentType → Option Str
  | .future b q e =>
    some (str "f." ++ b.sym ++ str "-" ++ q.sym ++ str "-" ++ e)
  | .option b q e st k =>
    match parseExpiryDate e .ymd with
    | some d =>
      some (str "o." ++ b.sym ++ str "-" ++ q.sym ++ str "-" ++ renderDate d .ymd
        ++ str "-" ++ natToStr st ++ str "-" ++ k.displayStr)
    | none => none
  | .spot b q => some (str "s." ++ b.sym ++ str "-" ++ q.sym)
  | .perpetual b q => some (str "p." ++ b.sym ++ str "-" ++ q.sym)

/-- `InstrumentType::from_str` (src/lib.rs): split the inner name on `-`,
dispatch on the trimmed, case-insensitive kind token, and check the arity of
the split for that kind.  The option arm parses the kind token first, then
the strike. -/
def InstrumentType.fromStr (kind instrumentName : Str) : Option InstrumentType :=
  let parts := instrumentName.splitOn '-'
  let k := trimStr kind
  if eqIgnoreAsciiCase k (str "o") || eqIgnoreAsciiCase k (str "option") then
    match parts with
    | [base, quote, expiry, strike, optionKind] =>
      match OptionKind.tryFrom optionKind with
      | .error _ => none
      | .ok ok1 =>
        match parseU64 strike with
        | none => none
        | some st =>
          some (.option (Currency.new base) (Currency.new quote) expiry st ok1)
    | _ => none
  else if eqIgnoreAsciiCase k (str "f") || eqIgnoreAsciiCase k (str "future") then
    match parts with
    | [base, quote, expiry] =>
      some (.future (Currency.new base) (Currency.new quote) expiry)
    | _ => none
  else if eqIgnoreAsciiCase k (str "p") || eqIgnoreAsciiCase k (str "perpetual") then
    match parts with
    | [base, quote] => some (.perpetual (Currency.new base) (Currency.new quote))
    | _ => none
  else if eqIgnoreAsciiCase k (str "s") || eqIgnoreAsciiCase k (str "spot") then
    match parts with
    | [base, quote] => some (.spot (Currency.new base) (Currency.new quote))
    | _ => none
  else none

/-- The `Instrument` aggregate. -/
structure Instrument where
  exchange : Exchange
  marketType : MarketType
  instrumentType : InstrumentType
deriving DecidableEq, Repr

/-- `impl Display for Instrument`:
`"{market_type}.{instrument_type}.{exchange}"` (partial, through the
instrument-type rendering). -/
def Instrument.displayStr (i : Instrument) : Option Str :=
  match i.instrumentType.displayStr with
  | some mid => some (i.marketType.displayStr ++ str "." ++ mid ++ str "." ++ i.exchange.displayStr)
  | none => none

/-! ## Exchange handlers (src/exchange/) -/

/-- `DeribitHandler::normalize` (src/exchange/deribit.rs).  Arms in source
order: two tokens ending in the case-insensitive keyword `perpetual` (with an
optional `_`-separated explicit quote, defaulting to `usd`), two tokens whose
second parses as a `%d%b%y` date (future), four tokens (option), one token
re-split on `_` (spot). -/
def deribitNormalize (marketType : MarketType) (instrumentName : Str) :
    Option Instrument :=
  match instrumentName.splitOn '-' with
  | [baseQuote, perpetual] =>
    if eqIgnoreAsciiCase perpetual (str "perpetual") then
      let bq := match splitOnce '_' baseQuote with
        | some (b, q) => (b, q)
        | none => (baseQuote, str "usd")
      some ⟨.deribit, marketType,
        .perpetual (Currency.new bq.1) (Currency.new bq.2)⟩
    else if (parseExpiryDate perpetual .dmy2).isSome then
      match normalizeExpiry perpetual with
      | none => none
      | some ne =>
        some ⟨.deribit, marketType,
          .future (Currency.new baseQuote) (Currency.new (str "usd")) ne⟩
    else none
  | [base, expiry, strikeStr, kindStr] =>
    if (parseExpiryDate expiry .dmy2).isSome then
      match parseU64 strikeStr with
      | none => none
      | some strike =>
        match OptionKind.tryFrom kindStr with
        | .error _ => none
        | .ok kind =>
          match normalizeExpiry expiry with
          | none => none
          | some ne =>
            some ⟨.deribit, marketType,
              .option (Currency.new base) (Currency.new (str "usd")) ne strike kind⟩
    else none
  | [spot] =>
    match spot.splitOn '_' with
    | [b, q] => some ⟨.deribit, marketType, .spot (Currency.new b) (Currency.new q)⟩
    | _ => none
  | _ => none

/-- `DeribitHandler::denormalize` (src/exchange/deribit.rs).  Futures and
options drop the quote unconditionally; spot always writes it; a perpetual
writes it exactly when it differs (ignoring ASCII case) from the `usd`
default. -/
def deribitDenormalize (instrument : Instrument) : Option Str :=
  if instrument.exchange ≠ .deribit then none
  else
    match instrument.instrumentType with
    | .future b _ e => some (b.sym ++ str "-" ++ denormalizeExpiry e .dmy2)
    | .option b _ e st k =>
      some (b.sym ++ str "-" ++ denormalizeExpiry e .dmy2 ++ str "-"
        ++ natToStr st ++ str "-" ++ k.displayStr)
    | .spot b q => some (b.sym ++ str "_" ++ q.sym)
    | .perpetual b q =>
      if eqIgnoreAsciiCase q.sym (str "usd") then
        some (b.sym ++ str "-PERPETUAL")
      else
        some (b.sym ++ str "_" ++ q.sym ++ str "-PERPETUAL")

/-- `DeriveHandler::supports_instrument_type`: options and perpetuals only. -/
def deriveSupportsInstrumentType : InstrumentType → Bool
  | .option _ _ _ _ _ => true
  | .perpetual _ _ => true
  | _ => false

/-- `DeriveHandler::normalize` (src/exchange/derive.rs).  The perpetual arm
matches the literal patterns `"perp" | "PERP"` (exact case); the option arm
takes four tokens with a `%Y%m%d` expiry. -/
def deriveNormalize (marketType : MarketType) (instrumentName : Str) :
    Option Instrument :=
  match instrumentName.splitOn '-' with
  | [base, p] =>
    if p = str "perp" ∨ p = str "PERP" then
      some ⟨.derive, marketType,
        .perpetual (Currency.new base) (Currency.new (str "usd"))⟩
    else none
  | [base, expiry, strikeStr, kindStr] =>
    if (parseExpiryDate expiry .ymd).isSome then
      match parseU64 strikeStr with
      | none => none
      | some strike =>
        match OptionKind.tryFrom kindStr with
        | .error _ => none
        | .ok kind =>
          match normalizeExpiry expiry with
          | none => none
          | some ne =>
            some ⟨.derive, marketType,
              .option (Currency.new base) (Currency.new (str "usd")) ne strike kind⟩
    else none
  | _ => none

/-- `DeriveHandler::denormalize` (src/exchange/derive.rs): exchange-tag and
instrument-type-support guards, then reassembly; the quote is never
written. -/
def deriveDenormalize (instrument : Instrument) : Option Str :=
  if instrument.exchange ≠ .derive then none
  else if ¬deriveSupportsInstrumentType instrument.instrumentType then none
  else
    match instrument.instrumentType with
    | .option b _ e st k =>
      some (b.sym ++ str "-" ++ denormalizeExpiry e .ymd ++ str "-"
        ++ natToStr st ++ str "-" ++ k.displayStr)
    | .perpetual b _ => some (b.sym ++ str "-PERP")
    | _ => none

/-- `DydxHandler::supports_market_type`: order book only. -/
def dydxSupportsMarketType : MarketType → Bool
  | .orderBook => true
  | _ => false

/-- `DydxHandler::supports_instrument_type`: perpetuals only. -/
def dydxSupportsInstrumentType : InstrumentType → Bool
  | .perpetual _ _ => true
  | _ => false

/-- `DydxHandler::normalize` (src/exchange/dydx.rs): market-type guard, then
any two `-`-separated tokens become a perpetual (no keyword check on the
second token). -/
def dydxNormalize (marketType : MarketType) (instrumentName : Str) :
    Option Instrument :=
  if ¬dydxSupportsMarketType marketType then none
  else
    match instrumentName.splitOn '-' with
    | [base, quote] =>
      some ⟨.dydx, marketType, .perpetual (Currency.new base) (Currency.new quote)⟩
    | _ => none

/-- `DydxHandler::denormalize` (src/exchange/dydx.rs). -/
def dydxDenormalize (instrument : Instrument) : Option Str :=
  if instrument.exchange ≠ .dydx then none
  else if ¬dydxSupportsInstrumentType instrument.instrumentType then none
  else if ¬dydxSupportsMarketType instrument.marketType then none
  else
    match instrument.instrumentType with
    | .perpetual b q => some (b.sym ++ str "-" ++ q.sym)
    | _ => none

/-- `ParadexHandler::supports_market_type`: order book only. -/
def paradexSupportsMarketType : MarketType → Bool
  | .orderBook => true
  | _ => false

/-- `ParadexHandler::supports_instrument_type`: perpetuals only. -/
def paradexSupportsInstrumentType : InstrumentType → Bool
  | .perpetual _ _ => true
  | _ => false

/-- `ParadexHandler::normalize` (src/exchange/paradex.rs): market-type guard,
then three tokens whose last is literally `"perp" | "PERP"`.  The source
builds the currencies with the raw `Currency(..)` tuple constructor, not
`Currency::new`, so the stored symbols keep the input casing. -/
def paradexNormalize (marketType : MarketType) (instrumentName : Str) :
    Option Instrument :=
  if ¬paradexSupportsMarketType marketType then none
  else
    match instrumentName.splitOn '-' with
    | [base, quote, p] =>
      if p = str "perp" ∨ p = str "PERP" then
        some ⟨.paradex, marketType, .perpetual ⟨base⟩ ⟨quote⟩⟩
      else none
    | _ => none

/-- `ParadexHandler::denormalize` (src/exchange/paradex.rs). -/
def paradexDenormalize (instrument : Instrument) : Option Str :=
  if instrument.exchange ≠ .paradex then none
  else if ¬paradexSupportsInstrumentType instrument.instrumentType then none
  else if ¬paradexSupportsMarketType instrument.marketType then none
  else
    match instrument.instrumentType with
    | .perpetual b q => some (b.sym ++ str "-" ++ q.sym ++ str "-PERP")
    | _ => none

/-- `Aevohandler::supports_market_type`: order book or ticker. -/
def aevoSupportsMarketType : MarketType → Bool
  | .orderBook => true
  | .ticker => true
  | _ => false

/-- `Aevohandler::supports_instrument_type`: perpetuals and options. -/
def aevoSupportsInstrumentType : InstrumentType → Bool
  | .perpetual _ _ => true
  | .option _ _ _ _ _ => true
  | _ => false

/-- `Aevohandler::normalize` (src/exchange/aevo.rs): market-type guard, then
either two tokens ending in the case-insensitive keyword `perp` (optional
`_`-separated quote, default `usdc`) or a four-token option with a `%d%b%y`
expiry. -/
def aevoNormalize (marketType : MarketType) (instrumentName : Str) :
    Option Instrument :=
  if ¬aevoSupportsMarketType marketType then none
  else
    match instrumentName.splitOn '-' with
    | [baseQuote, perpetual] =>
      if eqIgnoreAsciiCase perpetual (str "perp") then
        let bq := match splitOnce '_' baseQuote with
          | some (b, q) => (b, q)
          | none => (baseQuote, str "usdc")
        some ⟨.aevo, marketType,
          .perpetual (Currency.new bq.1) (Currency.new bq.2)⟩
      else none
    | [base, expiry, strikeStr, kindStr] =>
      if (parseExpiryDate expiry .dmy2).isSome then
        match parseU64 strikeStr with
        | none => none
        | some strike =>
          match OptionKind.tryFrom kindStr with
          | .error _ => none
          | .ok kind =>
            match normalizeExpiry expiry with
            | none => none
            | some ne =>
              some ⟨.aevo, marketType,
                .option (Currency.new base) (Currency.new (str "usdc")) ne strike kind⟩
      else none
    | _ => none

/-- `Aevohandler::denormalize` (src/exchange/aevo.rs): exchange-tag,
instrument-type-support and market-type-support guards, then reassembly;
the quote is never written. -/
def aevoDenormalize (instrument : Instrument) : Option Str :=
  if instrument.exchange ≠ .aevo then none
  else if ¬aevoSupportsInstrumentType instrument.instrumentType then none
  else if ¬aevoSupportsMarketType instrument.marketType then none
  else
    match instrument.instrumentType with
    | .option b _ e st k =>
      some (b.sym ++ str "-" ++ denormalizeExpiry e .dmy2 ++ str "-"
        ++ natToStr st ++ str "-" ++ k.displayStr)
    | .perpetual b _ => some (b.sym ++ str "-PERP")
    | _ => none

/-! ## The handler trait and registry -/

/-- The `ExchangeHandler` trait.  The two support predicates carry the
trait's default bodies (`true` for every input); a venue that does not
override them gets exactly these defaults. -/
structure ExchangeHandlerS where
  normalize : MarketType → Str → Option Instrument
  denormalize : Instrument → Option Str
  supportsMarketType : MarketType → Bool := fun _ => true
  supportsInstrumentType : InstrumentType → Bool := fun _ => true

/-- `DERIBIT_HANDLER`: Deribit overrides neither support predicate. -/
def deribitHandler : ExchangeHandlerS :=
  { normalize := deribitNormalize
    denormalize := deribitDenormalize }

/-- `DERIVE_HANDLER`: Derive overrides only `supports_instrument_type`. -/
def deriveHandler : ExchangeHandlerS :=
  { normalize := deriveNormalize
    denormalize := deriveDenormalize
    supportsInstrumentType := deriveSupportsInstrumentType }

/-- `DYDX_HANDLER`. -/
def dydxHandler : ExchangeHandlerS :=
  { normalize := dydxNormalize
    denormalize := dydxDenormalize
    supportsMarketType := dydxSupportsMarketType
    supportsInstrumentType := dydxSupportsInstrumentType }

/-- `PARADEX_HANDLER`. -/
def paradexHandler : ExchangeHandlerS :=
  { normalize := paradexNormalize
    denormalize := paradexDenormalize
    supportsMarketType := paradexSupportsMarketType
    supportsInstrumentType := paradexSupportsInstrumentType }

/-- `AEVO_HANDLER`. -/
def aevoHandler : ExchangeHandlerS :=
  { normalize := aevoNormalize
    denormalize := aevoDenormalize
    supportsMarketType := aevoSupportsMarketType
    supportsInstrumentType := aevoSupportsInstrumentType }

/-- `Exchange::handler`: the fixed registry. -/
def Exchange.handler : Exchange → ExchangeHandlerS
  | .deribit => deribitHandler
  | .dydx => dydxHandler
  | .derive => deriveHandler
  | .paradex => paradexHandler
  | .aevo => aevoHandler

/-! ## Standard format codec (src/lib.rs) -/

/-- The `InstrumentError` enum with its `thiserror`-rendered messages. -/
inductive InstrumentError where
  | invalidFormat (msg : Str)
  | unsupportedByExchange (msg : Str)
  | invalidDate (msg : Str)
  | parseError (msg : Str)
deriving DecidableEq, Repr

/-- `parse_standard_format` (src/lib.rs): split on `.` into exactly four
fields, resolve exchange then market type then instrument type, and accept
the candidate instrument exactly when the resolved handler's `denormalize`
returns a value. -/
def parseStandardFormat (instrumentStr : Str) :
    Except InstrumentError Instrument :=
  match instrumentStr.splitOn '.' with
  | [marketType, instrumentKind, instrumentName, exchange] =>
    match Exchange.tryFrom exchange with
    | .error e => .error (.parseError e)
    | .ok ex =>
      match MarketType.tryFrom marketType with
      | .error e => .error (.parseError e)
      | .ok mt =>
        match InstrumentType.fromStr instrumentKind instrumentName with
        | none =>
          .error (.invalidFormat (str "Invalid instrument format: "
            ++ instrumentKind ++ str "." ++ instrumentName))
        | some it =>
          let instrument : Instrument := ⟨ex, mt, it⟩
          if ((ex.handler).denormalize instrument).isSome then .ok instrument
          else
            .error (.unsupportedByExchange (str "Instrument not supported by "
              ++ ex.displayStr))
  | _ => .error (.invalidFormat (str "Invalid instrument format: " ++ instrumentStr))

/-- `to_exchange_format` (src/lib.rs): parse, then denormalize; collapse any
failure to `none`. -/
def toExchangeFormat (instrumentStr : Str) : Option Str :=
  match parseStandardFormat instrumentStr with
  | .ok instrument => (instrument.exchange.handler).denormalize instrument
  | .error _ => none

/-! ## Character and digit lemmas -/

theorem toNat_ofNat_valid (n : Nat) (h : n < 55296) : (Char.ofNat n).toNat = n := by
  unfold Char.ofNat
  rw [dif_pos (Or.inl h)]
  rfl

theorem char_eq_of_toNat {c d : Char} (h : c.toNat = d.toNat) : c = d :=
  Char.eq_of_val_eq (UInt32.ext h)

theorem digitChar_toNat {k : Nat} (h : k < 10) : (digitChar k).toNat = 48 + k := by
  interval_cases k <;> rfl

theorem isDigit_toNat {c : Char} (h : isDigitChar c = true) :
    48 ≤ c.toNat ∧ c.toNat ≤ 57 := by
  simpa [isDigitChar, Bool.and_eq_true, decide_eq_true_iff] using h

theorem isDigit_of_toNat {c : Char} (h1 : 48 ≤ c.toNat) (h2 : c.toNat ≤ 57) :
    isDigitChar c = true := by
  simp [isDigitChar, Bool.and_eq_true, decide_eq_true_iff]
  omega

theorem asciiLowerChar_eq_self {c : Char} (h : ¬(65 ≤ c.toNat ∧ c.toNat ≤ 90)) :
    asciiLowerChar c = c := if_neg h

theorem asciiUpperChar_eq_self {c : Char} (h : ¬(97 ≤ c.toNat ∧ c.toNat ≤ 122)) :
    asciiUpperChar c = c := if_neg h

theorem asciiLowerChar_toNat_upper {c : Char} (h : 65 ≤ c.toNat ∧ c.toNat ≤ 90) :
    (asciiLowerChar c).toNat = c.toNat + 32 := by
  unfold asciiLowerChar
  rw [if_pos h]
  exact toNat_ofNat_valid _ (by omega)

theorem asciiUpperChar_toNat_lower {c : Char} (h : 97 ≤ c.toNat ∧ c.toNat ≤ 122) :
    (asciiUpperChar c).toNat = c.toNat - 32 := by
  unfold asciiUpperChar
  rw [if_pos h]
  exact toNat_ofNat_valid _ (by omega)

theorem isWs_iff {c : Char} : isWsChar c = true ↔
    (c.toNat = 32 ∨ c.toNat = 9 ∨ c.toNat = 10 ∨ c.toNat = 13) := by
  simp only [isWsChar, Bool.or_eq_true, beq_iff_eq]
  tauto

theorem digit_not_ws {c : Char} (h : isDigitChar c = true) : isWsChar c = false := by
  have := isDigit_toNat h
  rw [Bool.eq_false_iff]
  intro hw
  rcases isWs_iff.mp hw with h1 | h1 | h1 | h1 <;> omega

theorem digit_lower_fix {c : Char} (h : isDigitChar c = true) :
    asciiLowerChar c = c := by
  have := isDigit_toNat h
  exact asciiLowerChar_eq_self (by omega)

theorem digit_upper_fix {c : Char} (h : isDigitChar c = true) :
    asciiUpperChar c = c := by
  have := isDigit_toNat h
  exact asciiUpperChar_eq_self (by omega)

theorem digitChar_isDigit {k : Nat} (h : k < 10) : isDigitChar (digitChar k) = true :=
  isDigit_of_toNat (by rw [digitChar_toNat h]; omega) (by rw [digitChar_toNat h]; omega)

theorem charDigitVal_digitChar {k : Nat} (h : k < 10) :
    charDigitVal (digitChar k) = k := by
  unfold charDigitVal
  rw [digitChar_toNat h]
  omega

/-! ## Numeral lemmas -/

theorem natOfDigits_append_one (a : Str) (c : Char) :
    natOfDigits (a ++ [c]) = natOfDigits a * 10 + charDigitVal c := by
  unfold natOfDigits
  rw [List.foldl_append]
  rfl

theorem natOfDigits_pad2 (n : Nat) : natOfDigits (pad2 n) = n % 100 := by
  have h1 := charDigitVal_digitChar (Nat.mod_lt (n / 10) (by omega) : n / 10 % 10 < 10)
  have h2 := charDigitVal_digitChar (Nat.mod_lt n (by omega) : n % 10 < 10)
  show (0 * 10 + charDigitVal (digitChar (n / 10 % 10))) * 10
      + charDigitVal (digitChar (n % 10)) = n % 100
  rw [h1, h2]
  omega

theorem natOfDigits_pad4 (n : Nat) : natOfDigits (pad4 n) = n % 10000 := by
  have h1 := charDigitVal_digitChar (Nat.mod_lt (n / 1000) (by omega) : n / 1000 % 10 < 10)
  have h2 := charDigitVal_digitChar (Nat.mod_lt (n / 100) (by omega) : n / 100 % 10 < 10)
  have h3 := charDigitVal_digitChar (Nat.mod_lt (n / 10) (by omega) : n / 10 % 10 < 10)
  have h4 := charDigitVal_digitChar (Nat.mod_lt n (by omega) : n % 10 < 10)
  show (((0 * 10 + charDigitVal (digitChar (n / 1000 % 10))) * 10
      + charDigitVal (digitChar (n / 100 % 10))) * 10
      + charDigitVal (digitChar (n / 10 % 10))) * 10
      + charDigitVal (digitChar (n % 10)) = n % 10000
  rw [h1, h2, h3, h4]
  omega

theorem pad2_length (n : Nat) : (pad2 n).length = 2 := rfl

theorem pad4_length (n : Nat) : (pad4 n).length = 4 := rfl

theorem pad2_digits (n : Nat) : ∀ c ∈ pad2 n, isDigitChar c = true := by
  intro c hc
  simp only [pad2, List.mem_cons, List.not_mem_nil, or_false] at hc
  rcases hc with rfl | rfl <;> exact digitChar_isDigit (Nat.mod_lt _ (by omega))

theorem pad4_digits (n : Nat) : ∀ c ∈ pad4 n, isDigitChar c = true := by
  intro c hc
  simp only [pad4, List.mem_cons, List.not_mem_nil, or_false] at hc
  rcases hc with rfl | rfl | rfl | rfl <;>
    exact digitChar_isDigit (Nat.mod_lt _ (by omega))

theorem natOfDigits_rev_map (L : List Nat) (h : ∀ d ∈ L, d < 10) :
    natOfDigits ((L.reverse).map digitChar) = Nat.ofDigits 10 L := by
  induction L with
  | nil => rfl
  | cons d t ih =>
    rw [List.reverse_cons, List.map_append, List.map_singleton,
      natOfDigits_append_one, ih (fun x hx => h x (List.mem_cons_of_mem d hx)),
      charDigitVal_digitChar (h d (List.mem_cons_self d t)), Nat.ofDigits_cons]
    ring

theorem natOfDigits_natToStr (n : Nat) : natOfDigits (natToStr n) = n := by
  unfold natToStr
  by_cases h : n = 0
  · subst h
    rfl
  · rw [if_neg h, natOfDigits_rev_map _ (fun d hd => Nat.digits_lt_base (by omega) hd),
      Nat.ofDigits_digits]

theorem natToStr_ne_nil (n : Nat) : natToStr n ≠ [] := by
  unfold natToStr
  by_cases h : n = 0
  · simp [h]
  · rw [if_neg h]
    simp [Nat.digits_ne_nil_iff_ne_zero.mpr h]

theorem natToStr_digits (n : Nat) : ∀ c ∈ natToStr n, isDigitChar c = true := by
  intro c hc
  unfold natToStr at hc
  by_cases h : n = 0
  · rw [if_pos h] at hc
    simp only [List.mem_singleton] at hc
    subst hc
    rfl
  · rw [if_neg h] at hc
    obtain ⟨d, hd, rfl⟩ := List.mem_map.mp hc
    exact digitChar_isDigit (Nat.digits_lt_base (by omega) (List.mem_reverse.mp hd))

theorem parseU64_natToStr {n : Nat} (h : n < 2 ^ 64) :
    parseU64 (natToStr n) = some n := by
  obtain ⟨c, t, he⟩ : ∃ c t, natToStr n = c :: t := by
    cases hn : natToStr n with
    | nil => exact absurd hn (natToStr_ne_nil n)
    | cons c t => exact ⟨c, t, rfl⟩
  have hdig : ∀ x ∈ natToStr n, isDigitChar x = true := natToStr_digits n
  have hc : c ≠ '+' := by
    intro hc
    have := isDigit_toNat (hdig c (he ▸ List.mem_cons_self c t))
    rw [hc] at this
    revert this
    decide
  rw [he]
  simp only [parseU64]
  rw [if_neg hc]
  rw [if_pos ⟨List.cons_ne_nil c t, List.all_eq_true.mpr (fun x hx => hdig x (he ▸ hx))⟩]
  rw [← he, natOfDigits_natToStr, if_pos h]

/-! ## Scanner lemmas -/

theorem scanNum_append {w : Nat} (ds rest : Str) (hw : ds.length = w)
    (h0 : ds ≠ []) (hdig : ∀ c ∈ ds, isDigitChar c = true) :
    scanNum w (ds ++ rest) = some (natOfDigits ds, rest) := by
  obtain ⟨c, ds', rfl⟩ : ∃ c ds', ds = c :: ds' := by
    cases ds with
    | nil => exact absurd rfl h0
    | cons c ds' => exact ⟨c, ds', rfl⟩
  have hws : isWsChar c = false := digit_not_ws (hdig c (List.mem_cons_self c ds'))
  simp only [scanNum]
  rw [List.cons_append, List.dropWhile_cons_of_neg (by simp [hws]), ← List.cons_append,
    List.take_left' hw, List.takeWhile_eq_self_iff.mpr hdig]
  rw [if_neg (by simp)]
  rw [List.drop_left]

theorem scanMonthAbbrev_cons3 (a b c : Char) (rest : Str) :
    scanMonthAbbrev (a :: b :: c :: rest) =
      (if lowerStr [a, b, c] = str "jan" then some (1, rest)
      else if lowerStr [a, b, c] = str "feb" then some (2, rest)
      else if lowerStr [a, b, c] = str "mar" then some (3, rest)
      else if lowerStr [a, b, c] = str "apr" then some (4, rest)
      else if lowerStr [a, b, c] = str "may" then some (5, rest)
      else if lowerStr [a, b, c] = str "jun" then some (6, rest)
      else if lowerStr [a, b, c] = str "jul" then some (7, rest)
      else if lowerStr [a, b, c] = str "aug" then some (8, rest)
      else if lowerStr [a, b, c] = str "sep" then some (9, rest)
      else if lowerStr [a, b, c] = str "oct" then some (10, rest)
      else if lowerStr [a, b, c] = str "nov" then some (11, rest)
      else if lowerStr [a, b, c] = str "dec" then some (12, rest)
      else none) := by
  have hlen : ¬((a :: b :: c :: rest).length < 3) := by
    simp only [List.length_cons]
    omega
  have htake : (a :: b :: c :: rest).take 3 = [a, b, c] := rfl
  have hdrop : (a :: b :: c :: rest).drop 3 = rest := rfl
  unfold scanMonthAbbrev
  rw [if_neg hlen, htake, hdrop]

theorem scanMonthAbbrev_letter_head_none (c : Char) (rest : Str)
    (h : c.toNat < 97) (hj : asciiLowerChar c = c) :
    scanMonthAbbrev (c :: rest) = none := by
  have key : ∀ (w : Str), (∃ d ds, w = d :: ds ∧ 97 ≤ d.toNat) →
      ¬(lowerStr ((c :: rest).take 3) = w) := by
    rintro w ⟨d, ds, rfl, hd⟩ heq
    rw [List.take_succ_cons] at heq
    simp only [lowerStr, List.map_cons, List.cons.injEq] at heq
    rw [hj] at heq
    have : c.toNat = d.toNat := by rw [heq.1]
    omega
  unfold scanMonthAbbrev
  by_cases hlen : (c :: rest).length < 3
  · rw [if_pos hlen]
  · rw [if_neg hlen,
      if_neg (key (str "jan") ⟨'j', str "an", by decide, by decide⟩),
      if_neg (key (str "feb") ⟨'f', str "eb", by decide, by decide⟩),
      if_neg (key (str "mar") ⟨'m', str "ar", by decide, by decide⟩),
      if_neg (key (str "apr") ⟨'a', str "pr", by decide, by decide⟩),
      if_neg (key (str "may") ⟨'m', str "ay", by decide, by decide⟩),
      if_neg (key (str "jun") ⟨'j', str "un", by decide, by decide⟩),
      if_neg (key (str "jul") ⟨'j', str "ul", by decide, by decide⟩),
      if_neg (key (str "aug") ⟨'a', str "ug", by decide, by decide⟩),
      if_neg (key (str "sep") ⟨'s', str "ep", by decide, by decide⟩),
      if_neg (key (str "oct") ⟨'o', str "ct", by decide, by decide⟩),
      if_neg (key (str "nov") ⟨'n', str "ov", by decide, by decide⟩),
      if_neg (key (str "dec") ⟨'d', str "ec", by decide, by decide⟩)]

theorem scanMonthAbbrev_digit_none (c : Char) (rest : Str)
    (h : isDigitChar c = true) : scanMonthAbbrev (c :: rest) = none := by
  have hc := isDigit_toNat h
  exact scanMonthAbbrev_letter_head_none c rest (by omega) (digit_lower_fix h)

/-! ## Split, case and base-token lemmas -/

theorem splitOn_sep {c : Char} {a : Str} (ha : c ∉ a) (b : Str) :
    (a ++ c :: b).splitOn c = a :: b.splitOn c := by
  unfold List.splitOn
  exact List.splitOnP_first _ a
    (fun x hx hbeq => ha (by rw [← show x = c from beq_iff_eq.mp hbeq]; exact hx))
    c (by simp) b

theorem splitOn_single {c : Char} {a : Str} (ha : c ∉ a) :
    a.splitOn c = [a] :=
  List.splitOnP_eq_single _ _ (fun x hx hbeq =>
    ha (by rw [← show x = c from beq_iff_eq.mp hbeq]; exact hx))

theorem splitOnce_none {c : Char} {a : Str} (ha : c ∉ a) :
    splitOnce c a = none := by
  induction a with
  | nil => rfl
  | cons x xs ih =>
    unfold splitOnce
    rw [if_neg (fun h : x = c => ha (h ▸ List.mem_cons_self x xs)),
      ih (fun h => ha (List.mem_cons_of_mem x h))]
    rfl

theorem map_fix_of_mem {f : Char → Char} {l : Str} (h : ∀ c ∈ l, f c = c) :
    l.map f = l := by
  induction l with
  | nil => rfl
  | cons x xs ih =>
    rw [List.map_cons, h x (List.mem_cons_self x xs),
      ih (fun c hc => h c (List.mem_cons_of_mem x hc))]

theorem eqIC_true_iff {a b : Str} :
    eqIgnoreAsciiCase a b = true ↔ lowerStr a = lowerStr b := by
  simp [eqIgnoreAsciiCase]

theorem eqIC_false_of_head {c d : Char} {r ds : Str}
    (hc : asciiLowerChar c = c) (hd : asciiLowerChar d = d) (hne : c ≠ d) :
    eqIgnoreAsciiCase (c :: r) (d :: ds) = false := by
  rw [Bool.eq_false_iff]
  intro h
  have h2 := eqIC_true_iff.mp h
  simp only [lowerStr, List.map_cons, List.cons.injEq] at h2
  rw [hc, hd] at h2
  exact hne h2.1

/-- Venue-emitted base tokens: nonempty, uppercase ASCII letters or digits
(so in particular free of the `-`, `_` and `.` delimiters and fixed by
uppercasing). -/
def GoodBase (b : Str) : Prop :=
  b ≠ [] ∧ ∀ c ∈ b, (65 ≤ c.toNat ∧ c.toNat ≤ 90) ∨ (48 ≤ c.toNat ∧ c.toNat ≤ 57)

instance (b : Str) : Decidable (GoodBase b) := by
  unfold GoodBase
  infer_instance

theorem GoodBase.upper_fix {b : Str} (h : GoodBase b) : upperStr b = b := by
  exact map_fix_of_mem (fun c hc =>
    asciiUpperChar_eq_self (by rcases h.2 c hc with h1 | h1 <;> omega))

theorem GoodBase.not_mem {b : Str} (h : GoodBase b) {c : Char}
    (hc : c.toNat < 48 ∨ (57 < c.toNat ∧ c.toNat < 65) ∨ 90 < c.toNat) :
    c ∉ b := by
  intro hmem
  rcases h.2 c hmem with h1 | h1 <;> omega

theorem GoodBase.no_dash {b : Str} (h : GoodBase b) : '-' ∉ b :=
  h.not_mem (by decide)

theorem GoodBase.no_underscore {b : Str} (h : GoodBase b) : '_' ∉ b :=
  h.not_mem (by decide)

theorem upperStr_append (a b : Str) : upperStr (a ++ b) = upperStr a ++ upperStr b :=
  List.map_append _ a b

theorem upperStr_pad2 (n : Nat) : upperStr (pad2 n) = pad2 n := by
  exact map_fix_of_mem (fun c hc => digit_upper_fix (pad2_digits n c hc))

theorem upperStr_pad4 (n : Nat) : upperStr (pad4 n) = pad4 n := by
  exact map_fix_of_mem (fun c hc => digit_upper_fix (pad4_digits n c hc))

theorem upperStr_natToStr (n : Nat) : upperStr (natToStr n) = natToStr n := by
  exact map_fix_of_mem (fun c hc => digit_upper_fix (natToStr_digits n c hc))

/-! ## Canonical date strings -/

/-- The canonical venue spelling of a `%d%b%y` date token: zero-padded day,
uppercase month abbreviation, zero-padded two-digit year. -/
def canonDMY2 (yy m d : Nat) : Str := pad2 d ++ upperStr (monthName m) ++ pad2 yy

/-- The canonical `%Y%m%d` spelling of a date. -/
def canonYMD (y m d : Nat) : Str := pad4 y ++ pad2 m ++ pad2 d

/-- The spec's notion of "a valid calendar date in canonical `YYYYMMDD`
form". -/
def IsCanonicalDateStr (s : Str) : Prop :=
  ∃ y m d, y < 10000 ∧ validYMD y m d = true ∧ s = canonYMD y m d

theorem IsCanonicalDateStr.length {s : Str} (h : IsCanonicalDateStr s) :
    s.length = 8 := by
  obtain ⟨y, m, d, -, -, rfl⟩ := h
  rfl

theorem monthName_upper_scan {m : Nat} (h1 : 1 ≤ m) (h2 : m ≤ 12) (rest : Str) :
    scanMonthAbbrev (upperStr (monthName m) ++ rest) = some (m, rest) := by
  interval_cases m
  · show scanMonthAbbrev ('J' :: 'A' :: 'N' :: rest) = some (1, rest)
    rw [scanMonthAbbrev_cons3]
    simp +decide
  · show scanMonthAbbrev ('F' :: 'E' :: 'B' :: rest) = some (2, rest)
    rw [scanMonthAbbrev_cons3]
    simp +decide
  · show scanMonthAbbrev ('M' :: 'A' :: 'R' :: rest) = some (3, rest)
    rw [scanMonthAbbrev_cons3]
    simp +decide
  · show scanMonthAbbrev ('A' :: 'P' :: 'R' :: rest) = some (4, rest)
    rw [scanMonthAbbrev_cons3]
    simp +decide
  · show scanMonthAbbrev ('M' :: 'A' :: 'Y' :: rest) = some (5, rest)
    rw [scanMonthAbbrev_cons3]
    simp +decide
  · show scanMonthAbbrev ('J' :: 'U' :: 'N' :: rest) = some (6, rest)
    rw [scanMonthAbbrev_cons3]
    simp +decide
  · show scanMonthAbbrev ('J' :: 'U' :: 'L' :: rest) = some (7, rest)
    rw [scanMonthAbbrev_cons3]
    simp +decide
  · show scanMonthAbbrev ('A' :: 'U' :: 'G' :: rest) = some (8, rest)
    rw [scanMonthAbbrev_cons3]
    simp +decide
  · show scanMonthAbbrev ('S' :: 'E' :: 'P' :: rest) = some (9, rest)
    rw [scanMonthAbbrev_cons3]
    simp +decide
  · show scanMonthAbbrev ('O' :: 'C' :: 'T' :: rest) = some (10, rest)
    rw [scanMonthAbbrev_cons3]
    simp +decide
  · show scanMonthAbbrev ('N' :: 'O' :: 'V' :: rest) = some (11, rest)
    rw [scanMonthAbbrev_cons3]
    simp +decide
  · show scanMonthAbbrev ('D' :: 'E' :: 'C' :: rest) = some (12, rest)
    rw [scanMonthAbbrev_cons3]
    simp +decide

theorem monthName_upper_chars {m : Nat} (h1 : 1 ≤ m) (h2 : m ≤ 12) :
    ∀ c ∈ upperStr (monthName m), 65 ≤ c.toNat ∧ c.toNat ≤ 90 := by
  interval_cases m <;> decide

theorem canonDMY2_cons (yy m d : Nat) :
    canonDMY2 yy m d = digitChar (d / 10 % 10) :: digitChar (d % 10)
      :: (upperStr (monthName m) ++ pad2 yy) := rfl

theorem canonDMY2_chars {yy m d : Nat} (h1 : 1 ≤ m) (h2 : m ≤ 12) :
    ∀ c ∈ canonDMY2 yy m d,
      (65 ≤ c.toNat ∧ c.toNat ≤ 90) ∨ (48 ≤ c.toNat ∧ c.toNat ≤ 57) := by
  intro c hc
  rcases List.mem_append.mp hc with hc1 | hc1
  · rcases List.mem_append.mp hc1 with hc2 | hc2
    · exact Or.inr (isDigit_toNat (pad2_digits d c hc2))
    · exact Or.inl (monthName_upper_chars h1 h2 c hc2)
  · exact Or.inr (isDigit_toNat (pad2_digits yy c hc1))

theorem canonDMY2_no_dash {yy m d : Nat} (h1 : 1 ≤ m) (h2 : m ≤ 12) :
    '-' ∉ canonDMY2 yy m d := by
  intro hmem
  rcases canonDMY2_chars h1 h2 _ hmem with h | h <;> revert h <;> decide

theorem canonDMY2_not_perpetual (yy m d : Nat) :
    eqIgnoreAsciiCase (canonDMY2 yy m d) (str "perpetual") = false := by
  rw [canonDMY2_cons, show str "perpetual" = 'p' :: str "erpetual" from rfl]
  exact eqIC_false_of_head
    (digit_lower_fix (digitChar_isDigit (Nat.mod_lt _ (by omega))))
    (by decide)
    (by
      intro h
      have h1 := digitChar_toNat (Nat.mod_lt (d / 10) (show 0 < 10 by omega))
      rw [h] at h1
      have h2 : ('p').toNat = 112 := rfl
      rw [h2] at h1
      omega)

theorem canonDMY2_not_perp (yy m d : Nat) :
    eqIgnoreAsciiCase (canonDMY2 yy m d) (str "perp") = false := by
  rw [canonDMY2_cons, show str "perp" = 'p' :: str "erp" from rfl]
  exact eqIC_false_of_head
    (digit_lower_fix (digitChar_isDigit (Nat.mod_lt _ (by omega))))
    (by decide)
    (by
      intro h
      have h1 := digitChar_toNat (Nat.mod_lt (d / 10) (show 0 < 10 by omega))
      rw [h] at h1
      have h2 : ('p').toNat = 112 := rfl
      rw [h2] at h1
      omega)

theorem parse_canonDMY2 {yy m d : Nat} (hyy : yy < 100) (h1 : 1 ≤ m) (h2 : m ≤ 12)
    (hv : validYMD (yearOfMod100 yy) m d = true) :
    parseExpiryDate (canonDMY2 yy m d) .dmy2 = some ⟨yearOfMod100 yy, m, d⟩ := by
  have hd31 : d ≤ 31 := by
    have hdm : daysInMonth (yearOfMod100 yy) m ≤ 31 := by
      interval_cases m <;> simp only [daysInMonth] <;> first
        | omega
        | split <;> omega
    simp only [validYMD, Bool.and_eq_true, decide_eq_true_iff] at hv
    omega
  have hd4 : natOfDigits (pad2 d) = d := by
    rw [natOfDigits_pad2]
    omega
  have hyy2 : natOfDigits (pad2 yy) = yy := by
    rw [natOfDigits_pad2]
    omega
  have hscan2 : scanNum 2 (pad2 yy) = some (yy, []) := by
    conv_lhs => rw [show pad2 yy = pad2 yy ++ [] from (List.append_nil _).symm]
    rw [scanNum_append (pad2 yy) [] (pad2_length yy) (by simp [pad2]) (pad2_digits yy),
      hyy2]
  unfold parseExpiryDate canonDMY2
  rw [List.append_assoc,
    scanNum_append (pad2 d) _ (pad2_length d) (by simp [pad2]) (pad2_digits d), hd4]
  simp only [monthName_upper_scan h1 h2, hscan2]
  simp [hv]

theorem canonYMD_cons (y m d : Nat) :
    canonYMD y m d = digitChar (y / 1000 % 10) :: digitChar (y / 100 % 10)
      :: digitChar (y / 10 % 10) :: digitChar (y % 10) :: (pad2 m ++ pad2 d) := by
  simp [canonYMD, pad4]

theorem canonYMD_digits (y m d : Nat) :
    ∀ c ∈ canonYMD y m d, isDigitChar c = true := by
  intro c hc
  rcases List.mem_append.mp hc with hc1 | hc1
  · rcases List.mem_append.mp hc1 with hc2 | hc2
    · exact pad4_digits y c hc2
    · exact pad2_digits m c hc2
  · exact pad2_digits d c hc1

theorem canonYMD_no_dash (y m d : Nat) : '-' ∉ canonYMD y m d := by
  intro hmem
  have := isDigit_toNat (canonYMD_digits y m d _ hmem)
  revert this
  decide

theorem parse_canonYMD {y m d : Nat} (hy : y < 10000)
    (hv : validYMD y m d = true) :
    parseExpiryDate (canonYMD y m d) .ymd = some ⟨y, m, d⟩ := by
  have hm100 : m ≤ 12 := by
    simp only [validYMD, Bool.and_eq_true, decide_eq_true_iff] at hv
    omega
  have hd31 : d ≤ 31 := by
    have hdm : daysInMonth y m ≤ 31 := by
      simp only [validYMD, Bool.and_eq_true, decide_eq_true_iff] at hv
      interval_cases m <;> simp only [daysInMonth] <;> first
        | omega
        | split <;> omega
    simp only [validYMD, Bool.and_eq_true, decide_eq_true_iff] at hv
    omega
  have hy4 : natOfDigits (pad4 y) = y := by
    rw [natOfDigits_pad4]
    omega
  have hm2 : natOfDigits (pad2 m) = m := by
    rw [natOfDigits_pad2]
    omega
  have hd2 : natOfDigits (pad2 d) = d := by
    rw [natOfDigits_pad2]
    omega
  have hscan2 : scanNum 2 (pad2 d) = some (d, []) := by
    conv_lhs => rw [show pad2 d = pad2 d ++ [] from (List.append_nil _).symm]
    rw [scanNum_append (pad2 d) [] (pad2_length d) (by simp [pad2]) (pad2_digits d),
      hd2]
  unfold parseExpiryDate canonYMD
  rw [List.append_assoc,
    scanNum_append (pad4 y) _ (pad4_length y) (by simp [pad4]) (pad4_digits y), hy4]
  simp only [scanNum_append (pad2 m) _ (pad2_length m) (by simp [pad2]) (pad2_digits m),
    hm2, hscan2]
  simp [hv]

theorem parse_canonYMD_dmy2_none (y m d : Nat) :
    parseExpiryDate (canonYMD y m d) .dmy2 = none := by
  have h2 : scanNum 2 (canonYMD y m d)
      = some (natOfDigits [digitChar (y / 1000 % 10), digitChar (y / 100 % 10)],
          digitChar (y / 10 % 10) :: digitChar (y % 10) :: (pad2 m ++ pad2 d)) := by
    rw [canonYMD_cons]
    exact scanNum_append [digitChar (y / 1000 % 10), digitChar (y / 100 % 10)] _
      rfl (by simp)
      (by
        intro c hc
        simp only [List.mem_cons, List.not_mem_nil, or_false] at hc
        rcases hc with rfl | rfl <;> exact digitChar_isDigit (Nat.mod_lt _ (by omega)))
  unfold parseExpiryDate
  simp only [h2, scanMonthAbbrev_digit_none (digitChar (y / 10 % 10))
    (digitChar (y % 10) :: (pad2 m ++ pad2 d))
    (digitChar_isDigit (Nat.mod_lt _ (by omega)))]

theorem normalizeExpiry_canonDMY2 {yy m d : Nat} (hyy : yy < 100) (h1 : 1 ≤ m)
    (h2 : m ≤ 12) (hv : validYMD (yearOfMod100 yy) m d = true) :
    normalizeExpiry (canonDMY2 yy m d)
      = some (renderDate ⟨yearOfMod100 yy, m, d⟩ .ymd) := by
  unfold normalizeExpiry
  rw [parse_canonDMY2 hyy h1 h2 hv]

theorem normalizeExpiry_canonYMD {y m d : Nat} (hy : y < 10000)
    (hv : validYMD y m d = true) :
    normalizeExpiry (canonYMD y m d) = some (renderDate ⟨y, m, d⟩ .ymd) := by
  unfold normalizeExpiry
  rw [parse_canonYMD_dmy2_none, parse_canonYMD hy hv]

theorem renderDate_ymd_eq (y m d : Nat) :
    renderDate ⟨y, m, d⟩ .ymd = canonYMD y m d := rfl

theorem pad2_congr {a b : Nat} (h : a % 100 = b % 100) : pad2 a = pad2 b := by
  unfold pad2
  rw [show a % 10 = b % 10 by omega, show a / 10 % 10 = b / 10 % 10 by omega]

theorem denormalizeExpiry_ymd_dmy2 {yy m d : Nat} (hyy : yy < 100) (h1 : 1 ≤ m)
    (h2 : m ≤ 12) (hv : validYMD (yearOfMod100 yy) m d = true) :
    denormalizeExpiry (renderDate ⟨yearOfMod100 yy, m, d⟩ .ymd) .dmy2
      = canonDMY2 yy m d := by
  have hy : yearOfMod100 yy < 10000 := by
    unfold yearOfMod100
    split <;> omega
  unfold denormalizeExpiry
  rw [renderDate_ymd_eq, parse_canonYMD hy hv]
  show upperStr (pad2 d ++ monthName m ++ pad2 (yearOfMod100 yy)) = _
  rw [upperStr_append, upperStr_append, upperStr_pad2, upperStr_pad2]
  unfold canonDMY2
  rw [pad2_congr (show yearOfMod100 yy % 100 = yy % 100 by unfold yearOfMod100; split <;> omega)]

theorem denormalizeExpiry_ymd_ymd {y m d : Nat} (hy : y < 10000)
    (hv : validYMD y m d = true) :
    denormalizeExpiry (renderDate ⟨y, m, d⟩ .ymd) .ymd = canonYMD y m d := by
  unfold denormalizeExpiry
  rw [renderDate_ymd_eq, parse_canonYMD hy hv]
  show upperStr (pad4 y ++ pad2 m ++ pad2 d) = _
  rw [upperStr_append, upperStr_append, upperStr_pad4, upperStr_pad2, upperStr_pad2]
  rfl

/-! ## Handler projection lemmas -/

theorem deribitHandler_norm : deribitHandler.normalize = deribitNormalize := rfl

theorem deribitHandler_denorm : deribitHandler.denormalize = deribitDenormalize := rfl

theorem deriveHandler_norm : deriveHandler.normalize = deriveNormalize := rfl

theorem deriveHandler_denorm : deriveHandler.denormalize = deriveDenormalize := rfl

theorem dydxHandler_norm : dydxHandler.normalize = dydxNormalize := rfl

theorem dydxHandler_denorm : dydxHandler.denormalize = dydxDenormalize := rfl

theorem paradexHandler_norm : paradexHandler.normalize = paradexNormalize := rfl

theorem paradexHandler_denorm : paradexHandler.denormalize = paradexDenormalize := rfl

theorem aevoHandler_norm : aevoHandler.normalize = aevoNormalize := rfl

theorem aevoHandler_denorm : aevoHandler.denormalize = aevoDenormalize := rfl

/-! ## Round-trip lemmas, one per venue-emitted shape -/

/-- Composition participating in the round-trip property. -/
def RoundTrip (h : ExchangeHandlerS) (mt : MarketType) (raw : Str) : Prop :=
  (h.normalize mt raw).bind h.denormalize = some raw

theorem optionKind_tryFrom_displayStr (k : OptionKind) :
    OptionKind.tryFrom k.displayStr = .ok k := by
  cases k <;> rfl

theorem optionKind_displayStr_no_dash (k : OptionKind) : '-' ∉ k.displayStr := by
  cases k <;> decide

theorem natToStr_no_dash (n : Nat) : '-' ∉ natToStr n := by
  intro hmem
  have := isDigit_toNat (natToStr_digits n _ hmem)
  revert this
  decide

theorem deribit_rt_perp (mt : MarketType) {b : Str} (hb : GoodBase b) :
    RoundTrip deribitHandler mt (b ++ str "-PERPETUAL") := by
  unfold RoundTrip
  rw [deribitHandler_norm, deribitHandler_denorm]
  have hsplit : (b ++ str "-PERPETUAL").splitOn '-' = [b, str "PERPETUAL"] := by
    rw [show b ++ str "-PERPETUAL" = b ++ '-' :: str "PERPETUAL" from rfl,
      splitOn_sep hb.no_dash, splitOn_single (by decide)]
  have hnorm : deribitNormalize mt (b ++ str "-PERPETUAL")
      = some ⟨.deribit, mt, .perpetual (Currency.new b) (Currency.new (str "usd"))⟩ := by
    unfold deribitNormalize
    rw [hsplit]
    simp [splitOnce_none hb.no_underscore,
      show eqIgnoreAsciiCase (str "PERPETUAL") (str "perpetual") = true from by decide]
  rw [hnorm]
  show deribitDenormalize _ = _
  simp [deribitDenormalize, Currency.new, hb.upper_fix,
    show eqIgnoreAsciiCase (upperStr (str "usd")) (str "usd") = true from by decide]


theorem deribit_rt_spot (mt : MarketType) {b q : Str} (hb : GoodBase b)
    (hq : GoodBase q) : RoundTrip deribitHandler mt (b ++ str "_" ++ q) := by
  unfold RoundTrip
  rw [deribitHandler_norm, deribitHandler_denorm]
  have hnd : '-' ∉ b ++ str "_" ++ q := by
    intro hmem
    rw [List.append_assoc] at hmem
    rcases List.mem_append.mp hmem with h | h
    · exact hb.no_dash h
    · rcases List.mem_cons.mp h with h1 | h1
      · exact absurd h1.symm (by decide)
      · exact hq.no_dash h1
  have hsplit : (b ++ str "_" ++ q).splitOn '-' = [b ++ str "_" ++ q] :=
    splitOn_single hnd
  have hsplit2 : (b ++ (str "_" ++ q)).splitOn '_' = [b, q] := by
    rw [show str "_" ++ q = '_' :: q from rfl,
      splitOn_sep hb.no_underscore, splitOn_single hq.no_underscore]
  have hnorm : deribitNormalize mt (b ++ str "_" ++ q)
      = some ⟨.deribit, mt, .spot (Currency.new b) (Currency.new q)⟩ := by
    unfold deribitNormalize
    rw [hsplit]
    simp [hsplit2]
  rw [hnorm]
  show deribitDenormalize _ = _
  simp [deribitDenormalize, Currency.new, hb.upper_fix, hq.upper_fix]

theorem deribit_rt_future (mt : MarketType) {b : Str} (hb : GoodBase b)
    {yy m d : Nat} (hyy : yy < 100) (h1 : 1 ≤ m) (h2 : m ≤ 12)
    (hv : validYMD (yearOfMod100 yy) m d = true) :
    RoundTrip deribitHandler mt (b ++ str "-" ++ canonDMY2 yy m d) := by
  unfold RoundTrip
  rw [deribitHandler_norm, deribitHandler_denorm]
  have hsplit : (b ++ str "-" ++ canonDMY2 yy m d).splitOn '-'
      = [b, canonDMY2 yy m d] := by
    rw [List.append_assoc, show str "-" ++ canonDMY2 yy m d = '-' :: canonDMY2 yy m d from rfl,
      splitOn_sep hb.no_dash, splitOn_single (canonDMY2_no_dash h1 h2)]
  have hnorm : deribitNormalize mt (b ++ str "-" ++ canonDMY2 yy m d)
      = some ⟨.deribit, mt, .future (Currency.new b) (Currency.new (str "usd"))
          (renderDate ⟨yearOfMod100 yy, m, d⟩ .ymd)⟩ := by
    unfold deribitNormalize
    rw [hsplit]
    simp [canonDMY2_not_perpetual, parse_canonDMY2 hyy h1 h2 hv,
      normalizeExpiry_canonDMY2 hyy h1 h2 hv]
  rw [hnorm]
  show deribitDenormalize _ = _
  simp [deribitDenormalize, Currency.new, hb.upper_fix,
    denormalizeExpiry_ymd_dmy2 hyy h1 h2 hv, List.append_assoc]

theorem deribit_rt_option (mt : MarketType) {b : Str} (hb : GoodBase b)
    {yy m d : Nat} (hyy : yy < 100) (h1 : 1 ≤ m) (h2 : m ≤ 12)
    (hv : validYMD (yearOfMod100 yy) m d = true) {n : Nat} (hn : n < 2 ^ 64)
    (k : OptionKind) :
    RoundTrip deribitHandler mt (b ++ str "-" ++ canonDMY2 yy m d ++ str "-"
      ++ natToStr n ++ str "-" ++ k.displayStr) := by
  unfold RoundTrip
  rw [deribitHandler_norm, deribitHandler_denorm]
  have hshape : b ++ str "-" ++ canonDMY2 yy m d ++ str "-" ++ natToStr n
      ++ str "-" ++ k.displayStr
      = b ++ '-' :: (canonDMY2 yy m d ++ '-' :: (natToStr n ++ '-' :: k.displayStr)) := by
    simp [show (str "-") = ['-'] from rfl, List.append_assoc]
  have hsplit : (b ++ str "-" ++ canonDMY2 yy m d ++ str "-" ++ natToStr n
      ++ str "-" ++ k.displayStr).splitOn '-'
      = [b, canonDMY2 yy m d, natToStr n, k.displayStr] := by
    rw [hshape, splitOn_sep hb.no_dash, splitOn_sep (canonDMY2_no_dash h1 h2),
      splitOn_sep (natToStr_no_dash n), splitOn_single (optionKind_displayStr_no_dash k)]
  have hnorm : deribitNormalize mt (b ++ str "-" ++ canonDMY2 yy m d ++ str "-"
      ++ natToStr n ++ str "-" ++ k.displayStr)
      = some ⟨.deribit, mt, .option (Currency.new b) (Currency.new (str "usd"))
          (renderDate ⟨yearOfMod100 yy, m, d⟩ .ymd) n k⟩ := by
    unfold deribitNormalize
    rw [hsplit]
    simp [parse_canonDMY2 hyy h1 h2 hv, parseU64_natToStr hn,
      optionKind_tryFrom_displayStr, normalizeExpiry_canonDMY2 hyy h1 h2 hv]
  rw [hnorm]
  show deribitDenormalize _ = _
  simp [deribitDenormalize, Currency.new, hb.upper_fix,
    denormalizeExpiry_ymd_dmy2 hyy h1 h2 hv, List.append_assoc]

theorem derive_rt_perp (mt : MarketType) {b : Str} (hb : GoodBase b) :
    RoundTrip deriveHandler mt (b ++ str "-PERP") := by
  unfold RoundTrip
  rw [deriveHandler_norm, deriveHandler_denorm]
  have hsplit : (b ++ str "-PERP").splitOn '-' = [b, str "PERP"] := by
    rw [show b ++ str "-PERP" = b ++ '-' :: str "PERP" from rfl,
      splitOn_sep hb.no_dash, splitOn_single (by decide)]
  have hnorm : deriveNormalize mt (b ++ str "-PERP")
      = some ⟨.derive, mt, .perpetual (Currency.new b) (Currency.new (str "usd"))⟩ := by
    unfold deriveNormalize
    rw [hsplit]
    simp [show (str "PERP" = str "perp" ∨ str "PERP" = str "PERP") from Or.inr rfl]
  rw [hnorm]
  show deriveDenormalize _ = _
  simp [deriveDenormalize, deriveSupportsInstrumentType, Currency.new, hb.upper_fix]

theorem derive_rt_option (mt : MarketType) {b : Str} (hb : GoodBase b)
    {y m d : Nat} (hy : y < 10000) (hv : validYMD y m d = true)
    {n : Nat} (hn : n < 2 ^ 64) (k : OptionKind) :
    RoundTrip deriveHandler mt (b ++ str "-" ++ canonYMD y m d ++ str "-"
      ++ natToStr n ++ str "-" ++ k.displayStr) := by
  unfold RoundTrip
  rw [deriveHandler_norm, deriveHandler_denorm]
  have hshape : b ++ str "-" ++ canonYMD y m d ++ str "-" ++ natToStr n
      ++ str "-" ++ k.displayStr
      = b ++ '-' :: (canonYMD y m d ++ '-' :: (natToStr n ++ '-' :: k.displayStr)) := by
    simp [show (str "-") = ['-'] from rfl, List.append_assoc]
  have hsplit : (b ++ str "-" ++ canonYMD y m d ++ str "-" ++ natToStr n
      ++ str "-" ++ k.displayStr).splitOn '-'
      = [b, canonYMD y m d, natToStr n, k.displayStr] := by
    rw [hshape, splitOn_sep hb.no_dash, splitOn_sep (canonYMD_no_dash y m d),
      splitOn_sep (natToStr_no_dash n), splitOn_single (optionKind_displayStr_no_dash k)]
  have hnorm : deriveNormalize mt (b ++ str "-" ++ canonYMD y m d ++ str "-"
      ++ natToStr n ++ str "-" ++ k.displayStr)
      = some ⟨.derive, mt, .option (Currency.new b) (Currency.new (str "usd"))
          (renderDate ⟨y, m, d⟩ .ymd) n k⟩ := by
    unfold deriveNormalize
    rw [hsplit]
    simp [parse_canonYMD hy hv, parseU64_natToStr hn,
      optionKind_tryFrom_displayStr, normalizeExpiry_canonYMD hy hv]
  rw [hnorm]
  show deriveDenormalize _ = _
  simp [deriveDenormalize, deriveSupportsInstrumentType, Currency.new, hb.upper_fix,
    denormalizeExpiry_ymd_ymd hy hv, List.append_assoc]

theorem aevo_rt_perp {mt : MarketType} (hmt : aevoSupportsMarketType mt = true)
    {b : Str} (hb : GoodBase b) : RoundTrip aevoHandler mt (b ++ str "-PERP") := by
  unfold RoundTrip
  rw [aevoHandler_norm, aevoHandler_denorm]
  have hsplit : (b ++ str "-PERP").splitOn '-' = [b, str "PERP"] := by
    rw [show b ++ str "-PERP" = b ++ '-' :: str "PERP" from rfl,
      splitOn_sep hb.no_dash, splitOn_single (by decide)]
  have hnorm : aevoNormalize mt (b ++ str "-PERP")
      = some ⟨.aevo, mt, .perpetual (Currency.new b) (Currency.new (str "usdc"))⟩ := by
    unfold aevoNormalize
    rw [hsplit]
    simp [hmt, splitOnce_none hb.no_underscore,
      show eqIgnoreAsciiCase (str "PERP") (str "perp") = true from by decide]
  rw [hnorm]
  show aevoDenormalize _ = _
  simp [aevoDenormalize, aevoSupportsInstrumentType, hmt, Currency.new, hb.upper_fix]

theorem aevo_rt_option {mt : MarketType} (hmt : aevoSupportsMarketType mt = true)
    {b : Str} (hb : GoodBase b) {yy m d : Nat} (hyy : yy < 100) (h1 : 1 ≤ m)
    (h2 : m ≤ 12) (hv : validYMD (yearOfMod100 yy) m d = true)
    {n : Nat} (hn : n < 2 ^ 64) (k : OptionKind) :
    RoundTrip aevoHandler mt (b ++ str "-" ++ canonDMY2 yy m d ++ str "-"
      ++ natToStr n ++ str "-" ++ k.displayStr) := by
  unfold RoundTrip
  rw [aevoHandler_norm, aevoHandler_denorm]
  have hshape : b ++ str "-" ++ canonDMY2 yy m d ++ str "-" ++ natToStr n
      ++ str "-" ++ k.displayStr
      = b ++ '-' :: (canonDMY2 yy m d ++ '-' :: (natToStr n ++ '-' :: k.displayStr)) := by
    simp [show (str "-") = ['-'] from rfl, List.append_assoc]
  have hsplit : (b ++ str "-" ++ canonDMY2 yy m d ++ str "-" ++ natToStr n
      ++ str "-" ++ k.displayStr).splitOn '-'
      = [b, canonDMY2 yy m d, natToStr n, k.displayStr] := by
    rw [hshape, splitOn_sep hb.no_dash, splitOn_sep (canonDMY2_no_dash h1 h2),
      splitOn_sep (natToStr_no_dash n), splitOn_single (optionKind_displayStr_no_dash k)]
  have hnorm : aevoNormalize mt (b ++ str "-" ++ canonDMY2 yy m d ++ str "-"
      ++ natToStr n ++ str "-" ++ k.displayStr)
      = some ⟨.aevo, mt, .option (Currency.new b) (Currency.new (str "usdc"))
          (renderDate ⟨yearOfMod100 yy, m, d⟩ .ymd) n k⟩ := by
    unfold aevoNormalize
    rw [hsplit]
    simp [hmt, parse_canonDMY2 hyy h1 h2 hv, parseU64_natToStr hn,
      optionKind_tryFrom_displayStr, normalizeExpiry_canonDMY2 hyy h1 h2 hv]
  rw [hnorm]
  show aevoDenormalize _ = _
  simp [aevoDenormalize, aevoSupportsInstrumentType, hmt, Currency.new, hb.upper_fix,
    denormalizeExpiry_ymd_dmy2 hyy h1 h2 hv, List.append_assoc]

theorem dydx_rt_perp {b q : Str} (hb : GoodBase b) (hq : GoodBase q) :
    RoundTrip dydxHandler .orderBook (b ++ str "-" ++ q) := by
  unfold RoundTrip
  rw [dydxHandler_norm, dydxHandler_denorm]
  have hsplit : (b ++ str "-" ++ q).splitOn '-' = [b, q] := by
    rw [List.append_assoc, show str "-" ++ q = '-' :: q from rfl,
      splitOn_sep hb.no_dash, splitOn_single hq.no_dash]
  have hnorm : dydxNormalize .orderBook (b ++ str "-" ++ q)
      = some ⟨.dydx, .orderBook, .perpetual (Currency.new b) (Currency.new q)⟩ := by
    unfold dydxNormalize
    rw [hsplit]
    simp [dydxSupportsMarketType]
  rw [hnorm]
  show dydxDenormalize _ = _
  simp [dydxDenormalize, dydxSupportsInstrumentType, dydxSupportsMarketType,
    Currency.new, hb.upper_fix, hq.upper_fix, List.append_assoc]

theorem paradex_rt_perp {b q : Str} (hb : GoodBase b) (hq : GoodBase q) :
    RoundTrip paradexHandler .orderBook (b ++ str "-" ++ q ++ str "-PERP") := by
  unfold RoundTrip
  rw [paradexHandler_norm, paradexHandler_denorm]
  have hshape : b ++ str "-" ++ q ++ str "-PERP"
      = b ++ '-' :: (q ++ '-' :: str "PERP") := by
    simp [show (str "-") = ['-'] from rfl, show str "-PERP" = '-' :: str "PERP" from rfl,
      List.append_assoc]
  have hsplit : (b ++ str "-" ++ q ++ str "-PERP").splitOn '-'
      = [b, q, str "PERP"] := by
    rw [hshape, splitOn_sep hb.no_dash, splitOn_sep hq.no_dash,
      splitOn_single (by decide)]
  have hnorm : paradexNormalize .orderBook (b ++ str "-" ++ q ++ str "-PERP")
      = some ⟨.paradex, .orderBook, .perpetual ⟨b⟩ ⟨q⟩⟩ := by
    unfold paradexNormalize
    rw [hsplit]
    simp [paradexSupportsMarketType,
      show (str "PERP" = str "perp" ∨ str "PERP" = str "PERP") from Or.inr rfl]
  rw [hnorm]
  show paradexDenormalize _ = _
  simp [paradexDenormalize, paradexSupportsInstrumentType, paradexSupportsMarketType,
    List.append_assoc]

/-! ## Claim theorems -/

/-- C1: for every venue and every instrument type it supports, composing the
handler's normalize and denormalize is the identity on venue-native names in
the documented shapes and casing (Deribit `BASE-PERPETUAL` / `BASE_QUOTE`
spot / `BASE-ddMONyy` future / `BASE-ddMONyy-STRIKE-K` option; Derive
`BASE-PERP` / `BASE-YYYYMMDD-STRIKE-K` option; Aevo `BASE-PERP` /
`BASE-ddMONyy-STRIKE-K` option under its supported market types; Dydx
`BASE-QUOTE` under order book; Paradex `BASE-QUOTE-PERP` under order book),
with the quote at the venue's default where it is omitted.  `GoodBase`
captures the venue token alphabet (uppercase letters and digits), `canonDMY2`
and `canonYMD` the canonical date spellings, `natToStr` the canonical strike
numeral and `OptionKind.displayStr` the `C`/`P` kind letter. -/
theorem round_trip_all_venues :
    (∀ (mt : MarketType) (b : Str), GoodBase b →
      RoundTrip deribitHandler mt (b ++ str "-PERPETUAL")) ∧
    (∀ (mt : MarketType) (b q : Str), GoodBase b → GoodBase q →
      RoundTrip deribitHandler mt (b ++ str "_" ++ q)) ∧
    (∀ (mt : MarketType) (b : Str) (yy m d : Nat), GoodBase b → yy < 100 →
      1 ≤ m → m ≤ 12 → validYMD (yearOfMod100 yy) m d = true →
      RoundTrip deribitHandler mt (b ++ str "-" ++ canonDMY2 yy m d)) ∧
    (∀ (mt : MarketType) (b : Str) (yy m d n : Nat) (k : OptionKind),
      GoodBase b → yy < 100 → 1 ≤ m → m ≤ 12 →
      validYMD (yearOfMod100 yy) m d = true → n < 2 ^ 64 →
      RoundTrip deribitHandler mt (b ++ str "-" ++ canonDMY2 yy m d ++ str "-"
        ++ natToStr n ++ str "-" ++ k.displayStr)) ∧
    (∀ (mt : MarketType) (b : Str), GoodBase b →
      RoundTrip deriveHandler mt (b ++ str "-PERP")) ∧
    (∀ (mt : MarketType) (b : Str) (y m d n : Nat) (k : OptionKind),
      GoodBase b → y < 10000 → validYMD y m d = true → n < 2 ^ 64 →
      RoundTrip deriveHandler mt (b ++ str "-" ++ canonYMD y m d ++ str "-"
        ++ natToStr n ++ str "-" ++ k.displayStr)) ∧
    (∀ (mt : MarketType) (b : Str), aevoSupportsMarketType mt = true →
      GoodBase b → RoundTrip aevoHandler mt (b ++ str "-PERP")) ∧
    (∀ (mt : MarketType) (b : Str) (yy m d n : Nat) (k : OptionKind),
      aevoSupportsMarketType mt = true → GoodBase b → yy < 100 → 1 ≤ m →
      m ≤ 12 → validYMD (yearOfMod100 yy) m d = true → n < 2 ^ 64 →
      RoundTrip aevoHandler mt (b ++ str "-" ++ canonDMY2 yy m d ++ str "-"
        ++ natToStr n ++ str "-" ++ k.displayStr)) ∧
    (∀ (b q : Str), GoodBase b → GoodBase q →
      RoundTrip dydxHandler .orderBook (b ++ str "-" ++ q)) ∧
    (∀ (b q : Str), GoodBase b → GoodBase q →
      RoundTrip paradexHandler .orderBook (b ++ str "-" ++ q ++ str "-PERP")) :=
  ⟨fun mt _ hb => deribit_rt_perp mt hb,
   fun mt _ _ hb hq => deribit_rt_spot mt hb hq,
   fun mt _ _ _ _ hb hyy h1 h2 hv => deribit_rt_future mt hb hyy h1 h2 hv,
   fun mt _ _ _ _ _ k hb hyy h1 h2 hv hn => deribit_rt_option mt hb hyy h1 h2 hv hn k,
   fun mt _ hb => derive_rt_perp mt hb,
   fun mt _ _ _ _ _ k hb hy hv hn => derive_rt_option mt hb hy hv hn k,
   fun _ _ hmt hb => aevo_rt_perp hmt hb,
   fun _ _ _ _ _ _ k hmt hb hyy h1 h2 hv hn => aevo_rt_option hmt hb hyy h1 h2 hv hn k,
   fun _ _ hb hq => dydx_rt_perp hb hq,
   fun _ _ hb hq => paradex_rt_perp hb hq⟩

/-- Witness for C1: each venue's round trip evaluated at a concrete
venue-native name (`BTC-PERPETUAL`, `BTC_USD`, `BTC-28MAR25`,
`BTC-28MAR25-100000-C`, `BTC-PERP`, `BTC-20250328-100000-C`, `BTC-USD`,
`BTC-USD-PERP`). -/
theorem round_trip_all_venues_witness :
    RoundTrip deribitHandler .orderBook (str "BTC" ++ str "-PERPETUAL") ∧
    RoundTrip deribitHandler .orderBook (str "BTC" ++ str "_" ++ str "USD") ∧
    RoundTrip deribitHandler .orderBook (str "BTC" ++ str "-" ++ canonDMY2 25 3 28) ∧
    RoundTrip deribitHandler .orderBook (str "BTC" ++ str "-" ++ canonDMY2 25 3 28
      ++ str "-" ++ natToStr 100000 ++ str "-" ++ OptionKind.displayStr .call) ∧
    RoundTrip deriveHandler .orderBook (str "BTC" ++ str "-PERP") ∧
    RoundTrip deriveHandler .orderBook (str "BTC" ++ str "-" ++ canonYMD 2025 3 28
      ++ str "-" ++ natToStr 100000 ++ str "-" ++ OptionKind.displayStr .call) ∧
    RoundTrip aevoHandler .orderBook (str "BTC" ++ str "-PERP") ∧
    RoundTrip aevoHandler .orderBook (str "BTC" ++ str "-" ++ canonDMY2 25 3 28
      ++ str "-" ++ natToStr 100000 ++ str "-" ++ OptionKind.displayStr .call) ∧
    RoundTrip dydxHandler .orderBook (str "BTC" ++ str "-" ++ str "USD") ∧
    RoundTrip paradexHandler .orderBook (str "BTC" ++ str "-" ++ str "USD" ++ str "-PERP") :=
  ⟨round_trip_all_venues.1 .orderBook (str "BTC") (by decide),
   round_trip_all_venues.2.1 .orderBook (str "BTC") (str "USD") (by decide) (by decide),
   round_trip_all_venues.2.2.1 .orderBook (str "BTC") 25 3 28 (by decide) (by decide)
     (by decide) (by decide) (by decide),
   round_trip_all_venues.2.2.2.1 .orderBook (str "BTC") 25 3 28 100000 .call
     (by decide) (by decide) (by decide) (by decide) (by decide) (by decide),
   round_trip_all_venues.2.2.2.2.1 .orderBook (str "BTC") (by decide),
   round_trip_all_venues.2.2.2.2.2.1 .orderBook (str "BTC") 2025 3 28 100000 .call
     (by decide) (by decide) (by decide) (by decide),
   round_trip_all_venues.2.2.2.2.2.2.1 .orderBook (str "BTC") (by decide) (by decide),
   round_trip_all_venues.2.2.2.2.2.2.2.1 .orderBook (str "BTC") 25 3 28 100000 .call
     (by decide) (by decide) (by decide) (by decide) (by decide) (by decide) (by decide),
   round_trip_all_venues.2.2.2.2.2.2.2.2.1 (str "BTC") (str "USD") (by decide) (by decide),
   round_trip_all_venues.2.2.2.2.2.2.2.2.2 (str "BTC") (str "USD") (by decide) (by decide)⟩

/-- C2: `parse_standard_format` yields `InvalidFormat` for any `.`-token
count other than four; when the four tokens resolve to an exchange, a market
type and an instrument type, the result is `Ok(instrument)` exactly when the
resolved handler's `denormalize` returns a value, and `UnsupportedByExchange`
otherwise. -/
theorem parse_standard_format_structure (s : Str) :
    ((s.splitOn '.').length ≠ 4 →
      parseStandardFormat s
        = .error (.invalidFormat (str "Invalid instrument format: " ++ s))) ∧
    (∀ (a b c d : Str) (ex : Exchange) (mt : MarketType) (it : InstrumentType),
      s.splitOn '.' = [a, b, c, d] →
      Exchange.tryFrom d = .ok ex →
      MarketType.tryFrom a = .ok mt →
      InstrumentType.fromStr b c = some it →
      parseStandardFormat s =
        if ((ex.handler).denormalize ⟨ex, mt, it⟩).isSome then .ok ⟨ex, mt, it⟩
        else .error (.unsupportedByExchange
          (str "Instrument not supported by " ++ ex.displayStr))) := by
  constructor
  · intro hlen
    unfold parseStandardFormat
    rcases h : s.splitOn '.' with _ | ⟨a, _ | ⟨b, _ | ⟨c, _ | ⟨d, _ | ⟨e, t⟩⟩⟩⟩⟩ <;>
      first
      | rfl
      | (exact absurd (by rw [h]; rfl) hlen)
  · intro a b c d ex mt it hsplit hex hmt hit
    unfold parseStandardFormat
    rw [hsplit]
    simp only [hex, hmt, hit]

/-- Witness for C2: the standard forms `o.p.BTC-USD.deribit` (accepted) and
`a.b.c` (wrong arity) at concrete inputs. -/
theorem parse_standard_format_structure_witness :
    parseStandardFormat (str "o.p.BTC-USD.deribit")
      = .ok ⟨.deribit, .orderBook,
          .perpetual (Currency.new (str "BTC")) (Currency.new (str "USD"))⟩ ∧
    parseStandardFormat (str "a.b.c")
      = .error (.invalidFormat (str "Invalid instrument format: " ++ str "a.b.c")) := by
  constructor
  · have h := (parse_standard_format_structure (str "o.p.BTC-USD.deribit")).2
      (str "o") (str "p") (str "BTC-USD") (str "deribit") .deribit .orderBook
      (.perpetual (Currency.new (str "BTC")) (Currency.new (str "USD")))
      (by decide) (by rfl) (by rfl) (by rfl)
    rw [h]
    rfl
  · exact (parse_standard_format_structure (str "a.b.c")).1 (by decide)

/-- C3 (failing input): `o.f.BTC-USD-XYZ.deribit` parses successfully even
though its expiry token `XYZ` is not a valid canonical date — the
denormalize-as-validator gate lets it through because Deribit's future arm
calls `denormalize_expiry`, which silently renders an empty string instead of
failing. -/
theorem parse_accepts_invalid_expiry :
    parseStandardFormat (str "o.f.BTC-USD-XYZ.deribit")
      = .ok ⟨.deribit, .orderBook,
          .future (Currency.new (str "BTC")) (Currency.new (str "USD")) (str "XYZ")⟩ ∧
    ¬IsCanonicalDateStr (str "XYZ") ∧
    parseExpiryDate (str "XYZ") .ymd = none ∧
    deribitDenormalize ⟨.deribit, .orderBook,
        .future (Currency.new (str "BTC")) (Currency.new (str "USD")) (str "XYZ")⟩
      = some (str "BTC-") :=
  ⟨rfl, fun h => absurd h.length (by decide), rfl, rfl⟩

/-- C5 (amended): only Deribit's perpetual arm writes the quote
conditionally — omitted exactly when it equals the `usd` default ignoring
ASCII case; Deribit futures and options and every accepted Derive and Aevo
instrument omit the quote unconditionally, while Deribit spot, Dydx and
Paradex always write it. -/
theorem quote_rendering_by_venue :
    (∀ (mt : MarketType) (b q : Currency),
      deribitDenormalize ⟨.deribit, mt, .perpetual b q⟩
        = some (if eqIgnoreAsciiCase q.sym (str "usd")
            then b.sym ++ str "-PERPETUAL"
            else b.sym ++ str "_" ++ q.sym ++ str "-PERPETUAL")) ∧
    (∀ (mt : MarketType) (b q : Currency) (e : Str),
      deribitDenormalize ⟨.deribit, mt, .future b q e⟩
        = some (b.sym ++ str "-" ++ denormalizeExpiry e .dmy2)) ∧
    (∀ (mt : MarketType) (b q : Currency) (e : Str) (st : Nat) (k : OptionKind),
      deribitDenormalize ⟨.deribit, mt, .option b q e st k⟩
        = some (b.sym ++ str "-" ++ denormalizeExpiry e .dmy2 ++ str "-"
            ++ natToStr st ++ str "-" ++ k.displayStr)) ∧
    (∀ (mt : MarketType) (b q : Currency),
      deribitDenormalize ⟨.deribit, mt, .spot b q⟩
        = some (b.sym ++ str "_" ++ q.sym)) ∧
    (∀ (mt : MarketType) (b q : Currency),
      deriveDenormalize ⟨.derive, mt, .perpetual b q⟩ = some (b.sym ++ str "-PERP")) ∧
    (∀ (mt : MarketType) (b q : Currency) (e : Str) (st : Nat) (k : OptionKind),
      deriveDenormalize ⟨.derive, mt, .option b q e st k⟩
        = some (b.sym ++ str "-" ++ denormalizeExpiry e .ymd ++ str "-"
            ++ natToStr st ++ str "-" ++ k.displayStr)) ∧
    (∀ (b q : Currency),
      aevoDenormalize ⟨.aevo, .orderBook, .perpetual b q⟩
        = some (b.sym ++ str "-PERP")) ∧
    (∀ (b q : Currency) (e : Str) (st : Nat) (k : OptionKind),
      aevoDenormalize ⟨.aevo, .orderBook, .option b q e st k⟩
        = some (b.sym ++ str "-" ++ denormalizeExpiry e .dmy2 ++ str "-"
            ++ natToStr st ++ str "-" ++ k.displayStr)) ∧
    (∀ (b q : Currency),
      dydxDenormalize ⟨.dydx, .orderBook, .perpetual b q⟩
        = some (b.sym ++ str "-" ++ q.sym)) ∧
    (∀ (b q : Currency),
      paradexDenormalize ⟨.paradex, .orderBook, .perpetual b q⟩
        = some (b.sym ++ str "-" ++ q.sym ++ str "-PERP")) := by
  refine ⟨fun mt b q => ?_, fun mt b q e => rfl, fun mt b q e st k => rfl,
    fun mt b q => rfl, fun mt b q => rfl, fun mt b q e st k => rfl,
    fun b q => rfl, fun b q e st k => rfl, fun b q => rfl, fun b q => rfl⟩
  unfold deribitDenormalize
  rw [if_neg (by simp)]
  show (if eqIgnoreAsciiCase q.sym (str "usd") = true then _ else _) = _
  split <;> rfl

/-- Counterexample for C5: an Aevo perpetual whose quote `USD` differs from
the venue's `USDC` default still renders with the quote omitted
(`SOL-PERP`), where the claim demands it be included. -/
theorem quote_rendering_counterexample :
    aevoDenormalize ⟨.aevo, .orderBook,
        .perpetual (Currency.new (str "SOL")) (Currency.new (str "USD"))⟩
      = some (str "SOL-PERP") ∧
    Currency.new (str "USD") ≠ Currency.new (str "USDC") ∧
    deriveDenormalize ⟨.derive, .orderBook,
        .perpetual (Currency.new (str "BTC")) (Currency.new (str "USDC"))⟩
      = some (str "BTC-PERP") ∧
    Currency.new (str "USDC") ≠ Currency.new (str "USD") :=
  ⟨rfl, by decide, rfl, by decide⟩

/-- C6 (amended): Dydx's normalize has no check at all on the quote token —
under the order-book market type any two-token `BASE-QUOTE` name (the literal
token `PERP` included) becomes a perpetual with that quote currency; under
every other market type it is rejected by the market-type guard. -/
theorem dydx_normalize_two_tokens (mt : MarketType) {b q : Str}
    (hb : '-' ∉ b) (hq : '-' ∉ q) :
    dydxNormalize mt (b ++ str "-" ++ q)
      = if mt = .orderBook
        then some ⟨.dydx, mt, .perpetual (Currency.new b) (Currency.new q)⟩
        else none := by
  have hsplit : (b ++ (str "-" ++ q)).splitOn '-' = [b, q] := by
    rw [show str "-" ++ q = '-' :: q from rfl, splitOn_sep hb, splitOn_single hq]
  unfold dydxNormalize
  cases mt <;> simp [dydxSupportsMarketType, hsplit]

/-- Counterexample for C6: Dydx's normalize does accept `BTC-PERP` under the
order-book market type, producing a perpetual whose quote currency is the
literal `PERP`; the claim says it returns no instrument for every market
type. -/
theorem dydx_accepts_btc_perp :
    dydxNormalize .orderBook (str "BTC-PERP")
      = some ⟨.dydx, .orderBook,
          .perpetual (Currency.new (str "BTC")) (Currency.new (str "PERP"))⟩ := rfl

/-- Witness for C6: the two-token characterization applied at `BTC-USD` under
ticker (rejected) and order book (accepted). -/
theorem dydx_normalize_two_tokens_witness :
    dydxNormalize .ticker (str "BTC" ++ str "-" ++ str "USD") = none ∧
    dydxNormalize .orderBook (str "BTC" ++ str "-" ++ str "USD")
      = some ⟨.dydx, .orderBook,
          .perpetual (Currency.new (str "BTC")) (Currency.new (str "USD"))⟩ := by
  constructor
  · rw [dydx_normalize_two_tokens .ticker (by decide) (by decide)]
    rfl
  · rw [dydx_normalize_two_tokens .orderBook (by decide) (by decide)]
    rfl

/-- C8 (amended): the trait-default support predicates accept everything;
Derive restricts instrument types (options and perpetuals) but not market
types; Dydx and Paradex restrict both predicates (order book; perpetuals);
Aevo restricts both (order book or ticker; perpetuals or options); Deribit
overrides neither predicate and accepts every value. -/
theorem supports_predicates_characterization :
    (deribitHandler.supportsMarketType = fun _ => true) ∧
    (deribitHandler.supportsInstrumentType = fun _ => true) ∧
    (deriveHandler.supportsMarketType = fun _ => true) ∧
    (∀ it, deriveHandler.supportsInstrumentType it = true ↔
      ((∃ b q e st k, it = .option b q e st k) ∨ ∃ b q, it = .perpetual b q)) ∧
    (∀ mt, dydxHandler.supportsMarketType mt = true ↔ mt = .orderBook) ∧
    (∀ it, dydxHandler.supportsInstrumentType it = true ↔ ∃ b q, it = .perpetual b q) ∧
    (∀ mt, paradexHandler.supportsMarketType mt = true ↔ mt = .orderBook) ∧
    (∀ it, paradexHandler.supportsInstrumentType it = true ↔ ∃ b q, it = .perpetual b q) ∧
    (∀ mt, aevoHandler.supportsMarketType mt = true ↔
      (mt = .orderBook ∨ mt = .ticker)) ∧
    (∀ it, aevoHandler.supportsInstrumentType it = true ↔
      ((∃ b q, it = .perpetual b q) ∨ ∃ b q e st k, it = .option b q e st k)) := by
  refine ⟨rfl, rfl, rfl, fun it => ?_, fun mt => ?_, fun it => ?_, fun mt => ?_,
    fun it => ?_, fun mt => ?_, fun it => ?_⟩
  · show deriveSupportsInstrumentType it = true ↔ _
    cases it <;> simp [deriveSupportsInstrumentType]
  · show dydxSupportsMarketType mt = true ↔ _
    cases mt <;> simp [dydxSupportsMarketType]
  · show dydxSupportsInstrumentType it = true ↔ _
    cases it <;> simp [dydxSupportsInstrumentType]
  · show paradexSupportsMarketType mt = true ↔ _
    cases mt <;> simp [paradexSupportsMarketType]
  · show paradexSupportsInstrumentType it = true ↔ _
    cases it <;> simp [paradexSupportsInstrumentType]
  · show aevoSupportsMarketType mt = true ↔ _
    cases mt <;> simp [aevoSupportsMarketType]
  · show aevoSupportsInstrumentType it = true ↔ _
    cases it <;> simp [aevoSupportsInstrumentType]

/-- Counterexample for C8: the Deribit handler restricts neither predicate —
both are the trait defaults and reject no value — refuting "every current
venue overrides and restricts at least one of the two". -/
theorem deribit_restricts_nothing :
    ¬((∃ mt, deribitHandler.supportsMarketType mt = false) ∨
      (∃ it, deribitHandler.supportsInstrumentType it = false)) := by
  rintro (⟨mt, h⟩ | ⟨it, h⟩) <;> exact absurd h (by simp [deribitHandler])

/-- C9 (amended): `denormalize_expiry` returns the empty string exactly when
its input fails to parse under the standard `%Y%m%d` pattern, and the
uppercased target-pattern rendering of the parsed date otherwise.  (The
`%Y%m%d` parse also accepts some non-canonical spellings, e.g. a one-digit
final day, so "empty exactly on non-canonical input" as originally claimed is
false — see the counterexample.) -/
theorem denormalize_expiry_characterization (s : Str) (fmt : DateFmt) :
    (denormalizeExpiry s fmt = [] ↔ parseExpiryDate s .ymd = none) ∧
    (∀ dte, parseExpiryDate s .ymd = some dte →
      denormalizeExpiry s fmt = upperStr (renderDate dte fmt)) := by
  have hne : ∀ dte : YMD, upperStr (renderDate dte fmt) ≠ [] := by
    intro dte
    cases fmt <;> simp [renderDate, upperStr, pad2, pad4]
  constructor
  · constructor
    · intro h
      cases hp : parseExpiryDate s .ymd with
      | none => rfl
      | some dte =>
        unfold denormalizeExpiry at h
        rw [hp] at h
        exact absurd h (hne dte)
    · intro h
      unfold denormalizeExpiry
      rw [h]
  · intro dte h
    unfold denormalizeExpiry
    rw [h]

/-- Witness for C9: the characterization applied at the canonical date
`20250328` (parses, uppercased `%d%b%y` rendering `28MAR25`) and at `XYZW`
(no parse, empty output). -/
theorem denormalize_expiry_characterization_witness :
    denormalizeExpiry (str "20250328") .dmy2 = upperStr (renderDate ⟨2025, 3, 28⟩ .dmy2) ∧
    (denormalizeExpiry (str "XYZW") .dmy2 = [] ↔ parseExpiryDate (str "XYZW") .ymd = none) :=
  ⟨(denormalize_expiry_characterization (str "20250328") .dmy2).2 ⟨2025, 3, 28⟩ rfl,
   (denormalize_expiry_characterization (str "XYZW") .dmy2).1⟩

/-- Counterexample for C9: `2025032` is not a canonical `YYYYMMDD` date (it
has seven characters), yet `denormalize_expiry` parses it (one-digit final
day) and returns `20250302`, not the empty string. -/
theorem denormalize_expiry_noncanonical :
    denormalizeExpiry (str "2025032") .ymd = str "20250302" ∧
    ¬IsCanonicalDateStr (str "2025032") :=
  ⟨rfl, fun h => absurd h.length (by decide)⟩

/-- C10: the perpetual keyword is matched case-insensitively by Deribit
(`PERPETUAL` in any casing) and Aevo (`PERP` in any casing, under a supported
market type), while Derive and Paradex accept the final token only when it is
literally `perp` or `PERP`, rejecting every other spelling outright. -/
theorem perp_keyword_case_sensitivity :
    (∀ (mt : MarketType) (b p : Str), '-' ∉ b → '_' ∉ b → '-' ∉ p →
      eqIgnoreAsciiCase p (str "perpetual") = true →
      deribitNormalize mt (b ++ str "-" ++ p)
        = some ⟨.deribit, mt, .perpetual (Currency.new b) (Currency.new (str "usd"))⟩) ∧
    (∀ (mt : MarketType) (b p : Str), aevoSupportsMarketType mt = true →
      '-' ∉ b → '_' ∉ b → '-' ∉ p →
      eqIgnoreAsciiCase p (str "perp") = true →
      aevoNormalize mt (b ++ str "-" ++ p)
        = some ⟨.aevo, mt, .perpetual (Currency.new b) (Currency.new (str "usdc"))⟩) ∧
    (∀ (mt : MarketType) (b p : Str), '-' ∉ b → '-' ∉ p →
      p ≠ str "perp" → p ≠ str "PERP" →
      deriveNormalize mt (b ++ str "-" ++ p) = none) ∧
    (∀ (mt : MarketType) (b q p : Str), '-' ∉ b → '-' ∉ q → '-' ∉ p →
      p ≠ str "perp" → p ≠ str "PERP" →
      paradexNormalize mt (b ++ str "-" ++ q ++ str "-" ++ p) = none) := by
  refine ⟨fun mt b p hb hu hp hic => ?_, fun mt b p hmt hb hu hp hic => ?_,
    fun mt b p hb hp h1 h2 => ?_, fun mt b q p hb hq hp h1 h2 => ?_⟩
  · have hsplit : (b ++ str "-" ++ p).splitOn '-' = [b, p] := by
      rw [List.append_assoc, show str "-" ++ p = '-' :: p from rfl,
        splitOn_sep hb, splitOn_single hp]
    unfold deribitNormalize
    rw [hsplit]
    simp [hic, splitOnce_none hu]
  · have hsplit : (b ++ str "-" ++ p).splitOn '-' = [b, p] := by
      rw [List.append_assoc, show str "-" ++ p = '-' :: p from rfl,
        splitOn_sep hb, splitOn_single hp]
    unfold aevoNormalize
    rw [hsplit]
    simp [hmt, hic, splitOnce_none hu]
  · have hsplit : (b ++ str "-" ++ p).splitOn '-' = [b, p] := by
      rw [List.append_assoc, show str "-" ++ p = '-' :: p from rfl,
        splitOn_sep hb, splitOn_single hp]
    unfold deriveNormalize
    rw [hsplit]
    simp [h1, h2]
  · have hshape : b ++ str "-" ++ q ++ str "-" ++ p = b ++ '-' :: (q ++ '-' :: p) := by
      simp [show (str "-") = ['-'] from rfl, List.append_assoc]
    have hsplit : (b ++ str "-" ++ q ++ str "-" ++ p).splitOn '-' = [b, q, p] := by
      rw [hshape, splitOn_sep hb, splitOn_sep hq, splitOn_single hp]
    unfold paradexNormalize
    by_cases hs : paradexSupportsMarketType mt = true
    · rw [hsplit]
      simp [hs, h1, h2]
    · simp [Bool.eq_false_iff.mpr hs]

/-- Witness for C10: the mixed-case keywords `Perpetual` and `Perp` accepted
by Deribit and Aevo and the mixed-case `Perp` rejected by Derive and
Paradex, at concrete inputs. -/
theorem perp_keyword_case_sensitivity_witness :
    deribitNormalize .orderBook (str "BTC" ++ str "-" ++ str "Perpetual")
      = some ⟨.deribit, .orderBook,
          .perpetual (Currency.new (str "BTC")) (Currency.new (str "usd"))⟩ ∧
    aevoNormalize .orderBook (str "BTC" ++ str "-" ++ str "Perp")
      = some ⟨.aevo, .orderBook,
          .perpetual (Currency.new (str "BTC")) (Currency.new (str "usdc"))⟩ ∧
    deriveNormalize .orderBook (str "BTC" ++ str "-" ++ str "Perp") = none ∧
    paradexNormalize .orderBook (str "BTC" ++ str "-" ++ str "USD" ++ str "-" ++ str "Perp")
      = none :=
  ⟨perp_keyword_case_sensitivity.1 .orderBook (str "BTC") (str "Perpetual")
      (by decide) (by decide) (by decide) (by decide),
   perp_keyword_case_sensitivity.2.1 .orderBook (str "BTC") (str "Perp")
      (by decide) (by decide) (by decide) (by decide) (by decide),
   perp_keyword_case_sensitivity.2.2.1 .orderBook (str "BTC") (str "Perp")
      (by decide) (by decide) (by decide) (by decide),
   perp_keyword_case_sensitivity.2.2.2 .orderBook (str "BTC") (str "USD") (str "Perp")
      (by decide) (by decide) (by decide) (by decide) (by decide)⟩

/-! ## Case-folding lemmas -/

theorem lowerChar_eq_iff {d : Char}
    (hd : d.toNat < 65 ∨ (90 < d.toNat ∧ d.toNat < 97))
    {c : Char} : asciiLowerChar c = d ↔ c = d := by
  constructor
  · intro h
    by_cases hc : 65 ≤ c.toNat ∧ c.toNat ≤ 90
    · have h2 := asciiLowerChar_toNat_upper hc
      rw [h] at h2
      omega
    · rwa [asciiLowerChar_eq_self hc] at h
  · intro h
    subst h
    exact asciiLowerChar_eq_self (by omega)

theorem lowerChar_idem (c : Char) :
    asciiLowerChar (asciiLowerChar c) = asciiLowerChar c := by
  by_cases h : 65 ≤ c.toNat ∧ c.toNat ≤ 90
  · have h2 := asciiLowerChar_toNat_upper h
    exact asciiLowerChar_eq_self (by omega)
  · rw [asciiLowerChar_eq_self h]
    exact asciiLowerChar_eq_self h

theorem upperChar_idem (c : Char) :
    asciiUpperChar (asciiUpperChar c) = asciiUpperChar c := by
  by_cases h : 97 ≤ c.toNat ∧ c.toNat ≤ 122
  · have h2 := asciiUpperChar_toNat_lower h
    exact asciiUpperChar_eq_self (by omega)
  · rw [asciiUpperChar_eq_self h]
    exact asciiUpperChar_eq_self h

theorem upperChar_lowerChar (c : Char) :
    asciiUpperChar (asciiLowerChar c) = asciiUpperChar c := by
  by_cases h : 65 ≤ c.toNat ∧ c.toNat ≤ 90
  · have h2 := asciiLowerChar_toNat_upper h
    have h3 : (asciiUpperChar (asciiLowerChar c)).toNat = c.toNat := by
      rw [asciiUpperChar_toNat_lower (by omega)]
      omega
    rw [asciiUpperChar_eq_self (show ¬(97 ≤ c.toNat ∧ c.toNat ≤ 122) by omega)]
    exact char_eq_of_toNat h3
  · rw [asciiLowerChar_eq_self h]

theorem isDigit_lower (c : Char) :
    isDigitChar (asciiLowerChar c) = isDigitChar c := by
  by_cases h : 65 ≤ c.toNat ∧ c.toNat ≤ 90
  · have h2 := asciiLowerChar_toNat_upper h
    have e1 : isDigitChar c = false := by
      rw [Bool.eq_false_iff]
      intro hx
      have := isDigit_toNat hx
      omega
    have e2 : isDigitChar (asciiLowerChar c) = false := by
      rw [Bool.eq_false_iff]
      intro hx
      have := isDigit_toNat hx
      omega
    rw [e1, e2]
  · rw [asciiLowerChar_eq_self h]

theorem isWs_lower (c : Char) : isWsChar (asciiLowerChar c) = isWsChar c := by
  by_cases h : 65 ≤ c.toNat ∧ c.toNat ≤ 90
  · have h2 := asciiLowerChar_toNat_upper h
    have e1 : isWsChar c = false := by
      rw [Bool.eq_false_iff]
      intro hx
      rcases isWs_iff.mp hx with h1 | h1 | h1 | h1 <;> omega
    have e2 : isWsChar (asciiLowerChar c) = false := by
      rw [Bool.eq_false_iff]
      intro hx
      rcases isWs_iff.mp hx with h1 | h1 | h1 | h1 <;> omega
    rw [e1, e2]
  · rw [asciiLowerChar_eq_self h]

theorem lowerStr_idem (s : Str) : lowerStr (lowerStr s) = lowerStr s := by
  unfold lowerStr
  rw [List.map_map]
  exact List.map_congr_left (fun c _ => lowerChar_idem c)

theorem upperStr_idem (s : Str) : upperStr (upperStr s) = upperStr s := by
  unfold upperStr
  rw [List.map_map]
  exact List.map_congr_left (fun c _ => upperChar_idem c)

theorem upperStr_lowerStr (s : Str) : upperStr (lowerStr s) = upperStr s := by
  unfold upperStr lowerStr
  rw [List.map_map]
  exact List.map_congr_left (fun c _ => upperChar_lowerChar c)

theorem currencyNew_lowerStr (s : Str) :
    Currency.new (lowerStr s) = Currency.new s := by
  unfold Currency.new
  rw [upperStr_lowerStr]

theorem eqIC_lower_left (a b : Str) :
    eqIgnoreAsciiCase (lowerStr a) b = eqIgnoreAsciiCase a b := by
  unfold eqIgnoreAsciiCase
  rw [lowerStr_idem]

theorem trimStr_lowerStr (s : Str) : trimStr (lowerStr s) = lowerStr (trimStr s) := by
  have hpred : (fun c => isWsChar c) ∘ asciiLowerChar = fun c => isWsChar c := by
    funext c
    exact isWs_lower c
  unfold trimStr lowerStr
  rw [List.dropWhile_map, hpred, ← List.map_reverse, List.dropWhile_map, hpred,
    ← List.map_reverse]

theorem splitOn_lowerStr {c : Char} (hc : ∀ x : Char, asciiLowerChar x = c ↔ x = c)
    (s : Str) : (lowerStr s).splitOn c = (s.splitOn c).map lowerStr := by
  induction s with
  | nil => rfl
  | cons x xs ih =>
    obtain ⟨hd, tl, heq⟩ : ∃ hd tl, xs.splitOn c = hd :: tl := by
      cases h : xs.splitOn c with
      | nil => exact absurd h (List.splitOnP_ne_nil _ xs)
      | cons hd tl => exact ⟨hd, tl, rfl⟩
    have ih2 : (lowerStr xs).splitOn c = lowerStr hd :: tl.map lowerStr := by
      rw [ih, heq]
      rfl
    show (asciiLowerChar x :: lowerStr xs).splitOn c = _
    unfold List.splitOn at *
    rw [List.splitOnP_cons, List.splitOnP_cons]
    by_cases hx : x = c
    · subst hx
      rw [if_pos (by simp [(hc x).mpr rfl]), if_pos (by simp)]
      rw [ih]
      rfl
    · rw [if_neg (by simp only [beq_iff_eq]; exact fun h => hx ((hc x).mp h)),
        if_neg (by simp only [beq_iff_eq]; exact hx)]
      rw [ih2, heq, List.modifyHead_cons, List.modifyHead_cons]
      rfl

theorem exchange_tryFrom_lower (d : Str) :
    (Exchange.tryFrom (lowerStr d)).toOption = (Exchange.tryFrom d).toOption := by
  unfold Exchange.tryFrom
  rw [trimStr_lowerStr]
  simp only [eqIC_lower_left]
  split_ifs <;> rfl

theorem marketType_tryFrom_lower (a : Str) :
    (MarketType.tryFrom (lowerStr a)).toOption = (MarketType.tryFrom a).toOption := by
  unfold MarketType.tryFrom
  rw [trimStr_lowerStr]
  simp only [eqIC_lower_left]

theorem optionKind_tryFrom_lower (v : Str) :
    (OptionKind.tryFrom (lowerStr v)).toOption = (OptionKind.tryFrom v).toOption := by
  unfold OptionKind.tryFrom
  simp only [eqIC_lower_left]
  split_ifs <;> rfl

theorem parseU64_lowerStr (s : Str) : parseU64 (lowerStr s) = parseU64 s := by
  have body : ∀ t : Str,
      (if lowerStr t ≠ [] ∧ ((lowerStr t).all (isDigitChar ·)) = true then
        (if natOfDigits (lowerStr t) < 2 ^ 64 then some (natOfDigits (lowerStr t)) else none)
      else none)
      = (if t ≠ [] ∧ (t.all (isDigitChar ·)) = true then
        (if natOfDigits t < 2 ^ 64 then some (natOfDigits t) else none)
      else none) := by
    intro t
    by_cases hall : t.all (isDigitChar ·) = true
    · have hfix : lowerStr t = t :=
        map_fix_of_mem (fun c hc => digit_lower_fix (List.all_eq_true.mp hall c hc))
      rw [hfix]
    · have h2 : ((lowerStr t).all (isDigitChar ·)) = true → False := by
        intro hx
        apply hall
        rw [List.all_eq_true] at hx ⊢
        intro c hc
        have hcc := hx (asciiLowerChar c) (List.mem_map_of_mem _ hc)
        rwa [isDigit_lower] at hcc
      rw [if_neg (fun h => h2 h.2), if_neg (fun h => absurd h.2 hall)]
  cases s with
  | nil => rfl
  | cons c r =>
    show parseU64 (asciiLowerChar c :: lowerStr r) = parseU64 (c :: r)
    simp only [parseU64]
    by_cases hc : c = '+'
    · rw [if_pos ((lowerChar_eq_iff (by decide)).mpr hc), if_pos hc]
      exact body r
    · rw [if_neg (fun h => hc ((lowerChar_eq_iff (by decide)).mp h)), if_neg hc]
      exact body (c :: r)

/-- Lowercasing a standard-format input changes only the verbatim-stored
expiry field of the parsed instrument type. -/
def lowerExpiryIT : InstrumentType → InstrumentType
  | .future b q e => .future b q (lowerStr e)
  | .option b q e st k => .option b q (lowerStr e) st k
  | .spot b q => .spot b q
  | .perpetual b q => .perpetual b q

theorem fromStr_lowerStr (kind name : Str) :
    InstrumentType.fromStr (lowerStr kind) (lowerStr name)
      = (InstrumentType.fromStr kind name).map lowerExpiryIT := by
  unfold InstrumentType.fromStr
  rw [splitOn_lowerStr (fun x => lowerChar_eq_iff (by decide)) name,
    trimStr_lowerStr]
  simp only [eqIC_lower_left]
  split_ifs
  · -- option kind code
    rcases h : name.splitOn '-' with _ | ⟨t1, _ | ⟨t2, _ | ⟨t3, _ | ⟨t4, _ | ⟨t5, _ | ⟨t6, tl⟩⟩⟩⟩⟩⟩ <;>
        simp only [List.map_cons, List.map_nil] <;> try rfl
    cases htf : OptionKind.tryFrom t5 with
    | error m =>
      cases htf2 : OptionKind.tryFrom (lowerStr t5) with
      | error m2 => rfl
      | ok k2 =>
        have hopt : (OptionKind.tryFrom (lowerStr t5)).toOption = none := by
          rw [optionKind_tryFrom_lower, htf]
          rfl
        rw [htf2] at hopt
        exact absurd hopt (by simp [Except.toOption])
    | ok k1 =>
      cases htf2 : OptionKind.tryFrom (lowerStr t5) with
      | error m2 =>
        have hopt : (OptionKind.tryFrom (lowerStr t5)).toOption = some k1 := by
          rw [optionKind_tryFrom_lower, htf]
          rfl
        rw [htf2] at hopt
        exact absurd hopt (by simp [Except.toOption])
      | ok k2 =>
        have hopt : (OptionKind.tryFrom (lowerStr t5)).toOption = some k1 := by
          rw [optionKind_tryFrom_lower, htf]
          rfl
        rw [htf2] at hopt
        simp only [Except.toOption, Option.some.injEq] at hopt
        subst hopt
        rw [parseU64_lowerStr]
        cases parseU64 t4 <;> simp [currencyNew_lowerStr, lowerExpiryIT]
  · -- future kind code
    rcases h : name.splitOn '-' with _ | ⟨t1, _ | ⟨t2, _ | ⟨t3, _ | ⟨t4, tl⟩⟩⟩⟩ <;>
        simp only [List.map_cons, List.map_nil] <;> try rfl
    simp [currencyNew_lowerStr, lowerExpiryIT]
  · -- perpetual kind code
    rcases h : name.splitOn '-' with _ | ⟨t1, _ | ⟨t2, _ | ⟨t3, tl⟩⟩⟩ <;>
        simp only [List.map_cons, List.map_nil] <;> try rfl
    simp [currencyNew_lowerStr, lowerExpiryIT]
  · -- spot kind code
    rcases h : name.splitOn '-' with _ | ⟨t1, _ | ⟨t2, _ | ⟨t3, tl⟩⟩⟩ <;>
        simp only [List.map_cons, List.map_nil] <;> try rfl
    simp [currencyNew_lowerStr, lowerExpiryIT]
  · rfl

theorem denorm_isSome_lowerExpiry (ex : Exchange) (mt : MarketType)
    (it : InstrumentType) :
    ((ex.handler).denormalize ⟨ex, mt, lowerExpiryIT it⟩).isSome
      = ((ex.handler).denormalize ⟨ex, mt, it⟩).isSome := by
  cases ex <;> cases it <;>
    simp only [Exchange.handler, deribitHandler, deriveHandler, dydxHandler,
      paradexHandler, aevoHandler, deribitDenormalize, deriveDenormalize,
      dydxDenormalize, paradexDenormalize, aevoDenormalize, lowerExpiryIT,
      deriveSupportsInstrumentType, dydxSupportsInstrumentType,
      dydxSupportsMarketType, paradexSupportsInstrumentType,
      paradexSupportsMarketType, aevoSupportsInstrumentType,
      aevoSupportsMarketType] <;>
    first
    | rfl
    | ((repeat' split) <;> rfl)

theorem parse_isOk_lowerStr (s : Str) :
    (parseStandardFormat (lowerStr s)).isOk = (parseStandardFormat s).isOk := by
  unfold parseStandardFormat
  rw [splitOn_lowerStr (fun x => lowerChar_eq_iff (by decide)) s]
  rcases h : s.splitOn '.' with _ | ⟨a, _ | ⟨b, _ | ⟨c, _ | ⟨d, _ | ⟨e, t⟩⟩⟩⟩⟩ <;>
    simp only [List.map_cons, List.map_nil] <;> try rfl
  cases hex : Exchange.tryFrom d with
  | error m =>
    cases hex2 : Exchange.tryFrom (lowerStr d) with
    | error m2 => rfl
    | ok ex2 =>
      have hopt := exchange_tryFrom_lower d
      rw [hex, hex2] at hopt
      exact absurd hopt (by simp [Except.toOption])
  | ok ex =>
    cases hex2 : Exchange.tryFrom (lowerStr d) with
    | error m2 =>
      have hopt := exchange_tryFrom_lower d
      rw [hex, hex2] at hopt
      exact absurd hopt (by simp [Except.toOption])
    | ok ex2 =>
      have hopt := exchange_tryFrom_lower d
      rw [hex, hex2] at hopt
      simp only [Except.toOption, Option.some.injEq] at hopt
      subst hopt
      cases hmt : MarketType.tryFrom a with
      | error m =>
        cases hmt2 : MarketType.tryFrom (lowerStr a) with
        | error m2 => rfl
        | ok mt2 =>
          have hopt := marketType_tryFrom_lower a
          rw [hmt, hmt2] at hopt
          exact absurd hopt (by simp [Except.toOption])
      | ok mt =>
        cases hmt2 : MarketType.tryFrom (lowerStr a) with
        | error m2 =>
          have hopt := marketType_tryFrom_lower a
          rw [hmt, hmt2] at hopt
          exact absurd hopt (by simp [Except.toOption])
        | ok mt2 =>
          have hopt := marketType_tryFrom_lower a
          rw [hmt, hmt2] at hopt
          simp only [Except.toOption, Option.some.injEq] at hopt
          subst hopt
          rw [fromStr_lowerStr]
          cases hfs : InstrumentType.fromStr b c with
          | none => rfl
          | some it =>
            show ((if ((ex2.handler).denormalize ⟨ex2, mt2, lowerExpiryIT it⟩).isSome = true
                then Except.ok (⟨ex2, mt2, lowerExpiryIT it⟩ : Instrument)
                else Except.error (InstrumentError.unsupportedByExchange
                  (str "Instrument not supported by " ++ ex2.displayStr))) :
                Except InstrumentError Instrument).isOk
              = ((if ((ex2.handler).denormalize ⟨ex2, mt2, it⟩).isSome = true
                then Except.ok (⟨ex2, mt2, it⟩ : Instrument)
                else Except.error (InstrumentError.unsupportedByExchange
                  (str "Instrument not supported by " ++ ex2.displayStr))) :
                Except InstrumentError Instrument).isOk
            rw [denorm_isSome_lowerExpiry]
            split <;> rfl

/-- C4 (amended): the canonical rendering decomposes as market-type code,
kind code, inner name and exchange name joined by `.`, with the two codes and
the exchange name lowercase (the inner name keeps the canonical casing of its
currencies and option-kind letter, so the output as a whole is not all
lowercase); and `parse_standard_format` accepts its input case-insensitively:
lowercasing the input never changes whether parsing succeeds. -/
theorem canonical_rendering_and_case_insensitivity :
    (∀ (i : Instrument) (s : Str), i.displayStr = some s →
      ∃ inner, s = i.marketType.displayStr ++ str "." ++ i.instrumentType.kindCode
          ++ str "." ++ inner ++ str "." ++ i.exchange.displayStr) ∧
    (∀ mt : MarketType, lowerStr mt.displayStr = mt.displayStr) ∧
    (∀ it : InstrumentType, lowerStr it.kindCode = it.kindCode) ∧
    (∀ ex : Exchange, lowerStr ex.displayStr = ex.displayStr) ∧
    (∀ s : Str, (parseStandardFormat (lowerStr s)).isOk = (parseStandardFormat s).isOk) := by
  refine ⟨?_, fun mt => by cases mt <;> decide, fun it => by cases it <;> rfl,
    fun ex => by cases ex <;> decide, parse_isOk_lowerStr⟩
  rintro ⟨ex, mt, it⟩ s h
  cases it with
  | future b q e =>
    simp only [Instrument.displayStr, InstrumentType.displayStr,
      Option.some.injEq] at h
    exact ⟨b.sym ++ str "-" ++ q.sym ++ str "-" ++ e, by
      rw [← h]
      simp [InstrumentType.kindCode, show str "f." = str "f" ++ str "." from rfl,
        List.append_assoc]⟩
  | option b q e st k =>
    cases hp : parseExpiryDate e .ymd with
    | none =>
      simp only [Instrument.displayStr, InstrumentType.displayStr, hp] at h
      exact absurd h (by simp)
    | some dte =>
      simp only [Instrument.displayStr, InstrumentType.displayStr, hp,
        Option.some.injEq] at h
      exact ⟨b.sym ++ str "-" ++ q.sym ++ str "-" ++ renderDate dte .ymd ++ str "-"
          ++ natToStr st ++ str "-" ++ k.displayStr, by
        rw [← h]
        simp [InstrumentType.kindCode, show str "o." = str "o" ++ str "." from rfl,
          List.append_assoc]⟩
  | spot b q =>
    simp only [Instrument.displayStr, InstrumentType.displayStr,
      Option.some.injEq] at h
    exact ⟨b.sym ++ str "-" ++ q.sym, by
      rw [← h]
      simp [InstrumentType.kindCode, show str "s." = str "s" ++ str "." from rfl,
        List.append_assoc]⟩
  | perpetual b q =>
    simp only [Instrument.displayStr, InstrumentType.displayStr,
      Option.some.injEq] at h
    exact ⟨b.sym ++ str "-" ++ q.sym, by
      rw [← h]
      simp [InstrumentType.kindCode, show str "p." = str "p" ++ str "." from rfl,
        List.append_assoc]⟩

/-- Witness for C4: the decomposition of a concrete rendering, and case
insensitivity of acceptance at a concrete mixed-case canonical string. -/
theorem canonical_rendering_witness :
    (∃ inner, str "o.p.BTC-USD.deribit"
        = str "o" ++ str "." ++ str "p" ++ str "." ++ inner ++ str "." ++ str "deribit") ∧
    (parseStandardFormat (lowerStr (str "O.P.BTC-USD.DERIBIT"))).isOk
      = (parseStandardFormat (str "O.P.BTC-USD.DERIBIT")).isOk :=
  ⟨canonical_rendering_and_case_insensitivity.1
      ⟨.deribit, .orderBook, .perpetual (Currency.new (str "BTC")) (Currency.new (str "USD"))⟩
      (str "o.p.BTC-USD.deribit") rfl,
   canonical_rendering_and_case_insensitivity.2.2.2.2 (str "O.P.BTC-USD.DERIBIT")⟩

/-- Counterexample for C4: a concrete canonical rendering contains uppercase
characters (the inner name `BTC-USD`), so the output is not all lowercase. -/
theorem display_not_all_lowercase :
    Instrument.displayStr ⟨.deribit, .orderBook,
        .perpetual (Currency.new (str "BTC")) (Currency.new (str "USD"))⟩
      = some (str "o.p.BTC-USD.deribit") ∧
    lowerStr (str "o.p.BTC-USD.deribit") ≠ str "o.p.BTC-USD.deribit" :=
  ⟨rfl, by decide⟩

/-- A currency stored in canonical (uppercase) form. -/
def CurrencyCanonical (c : Currency) : Prop := upperStr c.sym = c.sym

/-- Both currencies of an instrument type are canonical. -/
def InstrumentCurrenciesCanonical : InstrumentType → Prop
  | .future b q _ => CurrencyCanonical b ∧ CurrencyCanonical q
  | .option b q _ _ _ => CurrencyCanonical b ∧ CurrencyCanonical q
  | .spot b q => CurrencyCanonical b ∧ CurrencyCanonical q
  | .perpetual b q => CurrencyCanonical b ∧ CurrencyCanonical q

theorem currencyNew_canonical (s : Str) : CurrencyCanonical (Currency.new s) :=
  upperStr_idem s

theorem deribitNormalize_canonical (mt : MarketType) (name : Str) (i : Instrument)
    (h : deribitNormalize mt name = some i) :
    InstrumentCurrenciesCanonical i.instrumentType := by
  unfold deribitNormalize at h
  rcases hs : name.splitOn '-' with _ | ⟨a, _ | ⟨b, _ | ⟨c, _ | ⟨d, _ | ⟨e, t⟩⟩⟩⟩⟩ <;>
    rw [hs] at h <;>
    repeat' split at h
  all_goals simp only [Option.some.injEq, reduceCtorEq] at h
  all_goals subst h
  all_goals exact ⟨currencyNew_canonical _, currencyNew_canonical _⟩

theorem deriveNormalize_canonical (mt : MarketType) (name : Str) (i : Instrument)
    (h : deriveNormalize mt name = some i) :
    InstrumentCurrenciesCanonical i.instrumentType := by
  unfold deriveNormalize at h
  rcases hs : name.splitOn '-' with _ | ⟨a, _ | ⟨b, _ | ⟨c, _ | ⟨d, _ | ⟨e, t⟩⟩⟩⟩⟩ <;>
    rw [hs] at h <;>
    repeat' split at h
  all_goals simp only [Option.some.injEq, reduceCtorEq] at h
  all_goals subst h
  all_goals exact ⟨currencyNew_canonical _, currencyNew_canonical _⟩

theorem dydxNormalize_canonical (mt : MarketType) (name : Str) (i : Instrument)
    (h : dydxNormalize mt name = some i) :
    InstrumentCurrenciesCanonical i.instrumentType := by
  unfold dydxNormalize at h
  rcases hs : name.splitOn '-' with _ | ⟨a, _ | ⟨b, _ | ⟨c, t⟩⟩⟩ <;>
    repeat' split at h
  all_goals simp only [Option.some.injEq, reduceCtorEq] at h
  all_goals subst h
  all_goals exact ⟨currencyNew_canonical _, currencyNew_canonical _⟩

theorem aevoNormalize_canonical (mt : MarketType) (name : Str) (i : Instrument)
    (h : aevoNormalize mt name = some i) :
    InstrumentCurrenciesCanonical i.instrumentType := by
  unfold aevoNormalize at h
  rcases hs : name.splitOn '-' with _ | ⟨a, _ | ⟨b, _ | ⟨c, _ | ⟨d, _ | ⟨e, t⟩⟩⟩⟩⟩ <;>
    repeat' split at h
  all_goals simp only [Option.some.injEq, reduceCtorEq] at h
  all_goals subst h
  all_goals exact ⟨currencyNew_canonical _, currencyNew_canonical _⟩

theorem fromStr_canonical (kind name : Str) (it : InstrumentType)
    (h : InstrumentType.fromStr kind name = some it) :
    InstrumentCurrenciesCanonical it := by
  simp only [InstrumentType.fromStr] at h
  repeat' split at h
  all_goals simp only [Option.some.injEq, reduceCtorEq] at h
  all_goals subst h
  all_goals exact ⟨currencyNew_canonical _, currencyNew_canonical _⟩

theorem parseStandardFormat_canonical (s : Str) (i : Instrument)
    (h : parseStandardFormat s = .ok i) :
    InstrumentCurrenciesCanonical i.instrumentType := by
  simp only [parseStandardFormat] at h
  repeat' split at h
  all_goals simp only [Except.ok.injEq, reduceCtorEq] at h
  all_goals subst h
  all_goals exact fromStr_canonical _ _ _ (by assumption)

/-- C7 (amended): `Currency::new` values compare equal exactly when their
canonical uppercase forms are equal, and every `Currency` inside an
`Instrument` produced by the Deribit, Derive, Dydx or Aevo handler's
normalize or by `parse_standard_format` is canonical uppercase;
`ParadexHandler::normalize`, which builds its currencies with the raw tuple
constructor, instead stores the input casing verbatim, so it can produce
instruments holding non-uppercase currencies. -/
theorem currency_canonicalization :
    (∀ s t : Str, Currency.new s = Currency.new t ↔ upperStr s = upperStr t) ∧
    (∀ (mt : MarketType) (name : Str) (i : Instrument),
      deribitNormalize mt name = some i →
      InstrumentCurrenciesCanonical i.instrumentType) ∧
    (∀ (mt : MarketType) (name : Str) (i : Instrument),
      deriveNormalize mt name = some i →
      InstrumentCurrenciesCanonical i.instrumentType) ∧
    (∀ (mt : MarketType) (name : Str) (i : Instrument),
      dydxNormalize mt name = some i →
      InstrumentCurrenciesCanonical i.instrumentType) ∧
    (∀ (mt : MarketType) (name : Str) (i : Instrument),
      aevoNormalize mt name = some i →
      InstrumentCurrenciesCanonical i.instrumentType) ∧
    (∀ (s : Str) (i : Instrument), parseStandardFormat s = .ok i →
      InstrumentCurrenciesCanonical i.instrumentType) ∧
    (paradexNormalize .orderBook (str "btc-usd-PERP")
      = some ⟨.paradex, .orderBook, .perpetual ⟨str "btc"⟩ ⟨str "usd"⟩⟩) :=
  ⟨fun s t => by simp [Currency.new, Currency.mk.injEq],
   deribitNormalize_canonical, deriveNormalize_canonical, dydxNormalize_canonical,
   aevoNormalize_canonical, parseStandardFormat_canonical, rfl⟩

/-- Witness for C7: the equality law and the canonical-currencies invariant
at concrete inputs. -/
theorem currency_canonicalization_witness :
    (Currency.new (str "btc") = Currency.new (str "BTC")
      ↔ upperStr (str "btc") = upperStr (str "BTC")) ∧
    InstrumentCurrenciesCanonical
      (InstrumentType.perpetual (Currency.new (str "BTC")) (Currency.new (str "usd"))) :=
  ⟨currency_canonicalization.1 (str "btc") (str "BTC"),
   currency_canonicalization.2.1 .orderBook (str "BTC-PERPETUAL")
     ⟨.deribit, .orderBook,
       .perpetual (Currency.new (str "BTC")) (Currency.new (str "usd"))⟩ rfl⟩

/-- Counterexample for C7: Paradex's normalize (a public operation) produces
an instrument holding the non-canonical currency `btc`, and that currency
compares unequal to `BTC` although the two canonical forms agree — refuting
both halves of the claim. -/
theorem currency_non_canonical_from_paradex :
    paradexNormalize .orderBook (str "btc-usd-PERP")
      = some ⟨.paradex, .orderBook, .perpetual ⟨str "btc"⟩ ⟨str "usd"⟩⟩ ∧
    upperStr (str "btc") ≠ str "btc" ∧
    (⟨str "btc"⟩ : Currency) ≠ ⟨str "BTC"⟩ ∧
    upperStr (str "btc") = upperStr (str "BTC") :=
  ⟨rfl, by decide, by decide, by decide⟩
